import Mathlib

/-!
Verification of the tmux-focus-zoom layout engine.

This file shallowly embeds the Go source of the layout codec
(`ParseLayout`, `BuildLayout`, `calculateChecksum`), the geometry
transformer (`ApplyZoomToLayout`, `applyHorizontalZoom`,
`applyVerticalZoom`, `updateChildWidths`, `updateChildHeights`,
`applyNestedZoom`) and the snapshot/apply orchestrator (`ApplyZoom`
with its fallback path), and proves or refutes the behavioural claims
about them.

Modelling conventions:
* Go strings are `List Char` (layout strings are ASCII, so Go's byte
  indexing and rune iteration coincide with character indexing).
* Go `int` is `Int`; Go integer division truncates toward zero, which
  is `Int.tdiv`.  The Go `uint16` checksum accumulator is a `Nat` kept
  below 2^16 by explicit `% 65536`.
* The mutually recursive parser is defined with explicit fuel; a
  theorem below (claim C10) shows the fuel bound used by `ParseLayout`
  always suffices, so the fueled function is total on its inputs.
* Mutation in the Go code becomes functional update; `copyLayoutNode`
  (a deep copy in Go) is modelled literally and proved to be the
  identity on the pure trees.
-/

/-- `SplitType` from the source: leaf, `{}` (side-by-side) or `[]`
(top-to-bottom) split. -/
inductive SplitType where
  | none
  | horizontal
  | vertical
deriving DecidableEq, Repr

/-- `LayoutNode` from the source: width, height, x, y, pane id (−1 when
not a leaf), split kind and the ordered children. -/
inductive LayoutNode where
  | mk (width height x y paneID : Int) (splitType : SplitType)
      (children : List LayoutNode)
deriving Repr

mutual

def nodeDecEq : (a b : LayoutNode) → Decidable (a = b)
  | .mk w h x y p st cs, .mk w' h' x' y' p' st' cs' =>
    match listDecEq cs cs' with
    | isTrue hcs =>
      if hf : w = w' ∧ h = h' ∧ x = x' ∧ y = y' ∧ p = p' ∧ st = st' then
        isTrue (by
          obtain ⟨h1, h2, h3, h4, h5, h6⟩ := hf
          rw [h1, h2, h3, h4, h5, h6, hcs])
      else
        isFalse (by
          intro he
          injection he with e1 e2 e3 e4 e5 e6 e7
          exact hf ⟨e1, e2, e3, e4, e5, e6⟩)
    | isFalse hcs =>
      isFalse (by
        intro he
        injection he with e1 e2 e3 e4 e5 e6 e7
        exact hcs e7)

def listDecEq : (a b : List LayoutNode) → Decidable (a = b)
  | [], [] => isTrue rfl
  | [], _ :: _ => isFalse (by intro he; exact List.noConfusion he)
  | _ :: _, [] => isFalse (by intro he; exact List.noConfusion he)
  | c :: cs, d :: ds =>
    match nodeDecEq c d, listDecEq cs ds with
    | isTrue h1, isTrue h2 => isTrue (by rw [h1, h2])
    | isFalse h1, _ =>
      isFalse (by intro he; injection he with e1 e2; exact h1 e1)
    | isTrue _, isFalse h2 =>
      isFalse (by intro he; injection he with e1 e2; exact h2 e2)

end

instance : DecidableEq LayoutNode := nodeDecEq

instance : DecidableEq (Except String LayoutNode) := fun a b =>
  match a, b with
  | .error e, .error f =>
    if h : e = f then isTrue (by rw [h])
    else isFalse (by intro he; injection he with he'; exact h he')
  | .ok t, .ok u =>
    if h : t = u then isTrue (by rw [h])
    else isFalse (by intro he; injection he with he'; exact h he')
  | .error _, .ok _ => isFalse (by intro he; exact Except.noConfusion he)
  | .ok _, .error _ => isFalse (by intro he; exact Except.noConfusion he)

def LayoutNode.width : LayoutNode → Int
  | .mk w _ _ _ _ _ _ => w

def LayoutNode.height : LayoutNode → Int
  | .mk _ h _ _ _ _ _ => h

def LayoutNode.x : LayoutNode → Int
  | .mk _ _ x _ _ _ _ => x

def LayoutNode.y : LayoutNode → Int
  | .mk _ _ _ y _ _ _ => y

def LayoutNode.paneID : LayoutNode → Int
  | .mk _ _ _ _ p _ _ => p

def LayoutNode.splitType : LayoutNode → SplitType
  | .mk _ _ _ _ _ st _ => st

def LayoutNode.children : LayoutNode → List LayoutNode
  | .mk _ _ _ _ _ _ cs => cs

def LayoutNode.setChildren : LayoutNode → List LayoutNode → LayoutNode
  | .mk w h x y p st _, cs => .mk w h x y p st cs

def LayoutNode.setX : LayoutNode → Int → LayoutNode
  | .mk w h _ y p st cs, x => .mk w h x y p st cs

def LayoutNode.setY : LayoutNode → Int → LayoutNode
  | .mk w h x _ p st cs, y => .mk w h x y p st cs

/-- One step of the tmux checksum: rotate the 16-bit accumulator right
by one bit, then add the byte, with 16-bit wraparound
(`csum = (csum >> 1) + ((csum & 1) << 15); csum += b`). -/
def checksumStep (csum b : Nat) : Nat :=
  (csum / 2 + csum % 2 * 32768 + b) % 65536

/-- `calculateChecksum` from the source: fold `checksumStep` over the
bytes of the body, starting from 0. -/
def calculateChecksum (s : List Char) : Nat :=
  s.foldl (fun csum c => checksumStep csum c.toNat) 0

/-- Lowercase hexadecimal digit for a nibble (used by Go's `%04x`). -/
def hexDigit (n : Nat) : Char :=
  match n with
  | 0 => '0' | 1 => '1' | 2 => '2' | 3 => '3' | 4 => '4'
  | 5 => '5' | 6 => '6' | 7 => '7' | 8 => '8' | 9 => '9'
  | 10 => 'a' | 11 => 'b' | 12 => 'c' | 13 => 'd' | 14 => 'e'
  | _ => 'f'

/-- Go's `fmt.Sprintf("%04x", csum)` on a `uint16`: exactly four
lowercase hex digits, most significant nibble first. -/
def hex4 (n : Nat) : List Char :=
  [hexDigit (n / 4096 % 16), hexDigit (n / 256 % 16),
   hexDigit (n / 16 % 16), hexDigit (n % 16)]

/-- Decimal digit character for a value below 10 (Go's integer
formatting). -/
def digitToChar (d : Nat) : Char :=
  match d with
  | 0 => '0' | 1 => '1' | 2 => '2' | 3 => '3' | 4 => '4'
  | 5 => '5' | 6 => '6' | 7 => '7' | 8 => '8' | _ => '9'

/-- Decimal digits of a natural number, most significant first
(Go's `fmt` `%d` on a non-negative value). -/
def natDigits (n : Nat) : List Char :=
  if _h : n < 10 then [digitToChar n]
  else natDigits (n / 10) ++ [digitToChar (n % 10)]
decreasing_by exact Nat.div_lt_self (by omega) (by omega)

/-- Go's `%d` formatting of an `int`: optional minus sign followed by
decimal digits. -/
def intStr (n : Int) : List Char :=
  if n < 0 then '-' :: natDigits (-n).toNat else natDigits n.toNat

/-- Numeric value of a decimal digit character, `none` for anything
else (the digit test inside Go's `strconv.Atoi`). -/
def charDigit (c : Char) : Option Nat :=
  if c = '0' then some 0 else if c = '1' then some 1
  else if c = '2' then some 2 else if c = '3' then some 3
  else if c = '4' then some 4 else if c = '5' then some 5
  else if c = '6' then some 6 else if c = '7' then some 7
  else if c = '8' then some 8 else if c = '9' then some 9
  else none

/-- Accumulating decimal reader over a digit list. -/
def parseDigitsAux (acc : Nat) : List Char → Option Nat
  | [] => some acc
  | c :: cs =>
    match charDigit c with
    | none => none
    | some d => parseDigitsAux (acc * 10 + d) cs

/-- Reads a non-empty all-digit string, `none` otherwise. -/
def parseDigits : List Char → Option Nat
  | [] => none
  | c :: cs => parseDigitsAux 0 (c :: cs)

/-- Model of Go's `strconv.Atoi`: optional sign then one or more
decimal digits.  (Go's 64-bit range check is not modelled; layout
fields are small.) -/
def goAtoi : List Char → Option Int
  | [] => none
  | c :: rest =>
    if c = '-' then (parseDigits rest).map (fun n => -(n : Int))
    else if c = '+' then (parseDigits rest).map (fun n => (n : Int))
    else (parseDigits (c :: rest)).map (fun n => (n : Int))

/-- Characters ending the `y` field of a node
(`',' '{' '[' '}' ']'` in `parseNode`). -/
def isNodeEnd (c : Char) : Bool :=
  c = ',' || c = '{' || c = '[' || c = '}' || c = ']'

/-- Characters ending a pane-id field (`',' '}' ']'` in `parseNode`). -/
def isPaneEnd (c : Char) : Bool :=
  c = ',' || c = '}' || c = ']'

mutual

/-- `parseNode` from the source, with explicit fuel for the mutual
recursion (`none` = fuel exhausted; claim C10 shows the fuel bound
`ParseLayout` uses always suffices).  The Go function reassigns `s`
after each field; those sequential stages are the `parseAfterWidth`
… `parseTail` functions below.  This stage: find `x`, read the
width. -/
def parseNode : List Char → Nat → Option (Except String (LayoutNode × List Char))
  | _, 0 => Option.none
  | s, fuel + 1 =>
    if 'x' ∈ s then
      match goAtoi (s.takeWhile (· != 'x')) with
      | Option.none => some (.error "invalid width")
      | some w => parseAfterWidth w ((s.dropWhile (· != 'x')).tail) fuel
    else some (.error "invalid node: no 'x' in dimensions")

/-- `parseNode` after the width: find the comma, read the height. -/
def parseAfterWidth : Int → List Char → Nat → Option (Except String (LayoutNode × List Char))
  | _, _, 0 => Option.none
  | w, s, fuel + 1 =>
    if ',' ∈ s then
      match goAtoi (s.takeWhile (· != ',')) with
      | Option.none => some (.error "invalid height")
      | some h => parseAfterHeight w h ((s.dropWhile (· != ',')).tail) fuel
    else some (.error "invalid node: no comma after height")

/-- `parseNode` after the height: find the comma, read `x`. -/
def parseAfterHeight : Int → Int → List Char → Nat → Option (Except String (LayoutNode × List Char))
  | _, _, _, 0 => Option.none
  | w, h, s, fuel + 1 =>
    if ',' ∈ s then
      match goAtoi (s.takeWhile (· != ',')) with
      | Option.none => some (.error "invalid x")
      | some x => parseAfterX w h x ((s.dropWhile (· != ',')).tail) fuel
    else some (.error "invalid node: no comma after x")

/-- `parseNode` after `x`: read `y`, which ends at a comma, bracket
or end of string. -/
def parseAfterX : Int → Int → Int → List Char → Nat → Option (Except String (LayoutNode × List Char))
  | _, _, _, _, 0 => Option.none
  | w, h, x, s, fuel + 1 =>
    match goAtoi (s.takeWhile (fun c => !isNodeEnd c)) with
    | Option.none => some (.error "invalid y")
    | some y => parseTail w h x y (s.dropWhile (fun c => !isNodeEnd c)) fuel

/-- The trailing `switch` of `parseNode`: children list for `{`/`[`,
pane id after `,`, end of the parent's list at `}`/`]`, a bare node
at end of input. -/
def parseTail : Int → Int → Int → Int → List Char → Nat → Option (Except String (LayoutNode × List Char))
  | _, _, _, _, _, 0 => Option.none
  | w, h, x, y, [], _ + 1 => some (.ok (.mk w h x y (-1) SplitType.none [], []))
  | w, h, x, y, c :: s5, fuel + 1 =>
    if c = '{' then
      match parseChildren s5 '}' fuel with
      | Option.none => Option.none
      | some (.error e) => some (.error e)
      | some (.ok (cs, rest)) =>
        some (.ok (.mk w h x y (-1) SplitType.horizontal cs, rest))
    else if c = '[' then
      match parseChildren s5 ']' fuel with
      | Option.none => Option.none
      | some (.error e) => some (.error e)
      | some (.ok (cs, rest)) =>
        some (.ok (.mk w h x y (-1) SplitType.vertical cs, rest))
    else if c = ',' then
      match goAtoi (s5.takeWhile (fun c => !isPaneEnd c)) with
      | Option.none => some (.error "invalid pane ID")
      | some pid =>
        some (.ok (.mk w h x y pid SplitType.none [],
          s5.dropWhile (fun c => !isPaneEnd c)))
    else if c = '}' ∨ c = ']' then
      some (.ok (.mk w h x y (-1) SplitType.none [], c :: s5))
    else some (.error "unexpected character")

/-- `parseChildren` from the source: comma-separated nodes until the
closing bracket, which is skipped when present (an unmatched open
bracket is tolerated: the list ends at end of input). -/
def parseChildren : List Char → Char → Nat → Option (Except String (List LayoutNode × List Char))
  | _, _, 0 => Option.none
  | [], _, _ + 1 => some (.ok ([], []))
  | c :: s, endChar, fuel + 1 =>
    if c = endChar then some (.ok ([], s))
    else
      match parseNode (c :: s) fuel with
      | Option.none => Option.none
      | some (.error e) => some (.error e)
      | some (.ok (child, rest)) =>
        match parseChildren (if rest.head? = some ',' then rest.tail else rest) endChar fuel with
        | Option.none => Option.none
        | some (.error e) => some (.error e)
        | some (.ok (cs, rest2)) => some (.ok (child :: cs, rest2))

end

/-- `ParseLayout` from the source: strip the checksum field before the
first comma, then parse one node (the remainder after the node is
ignored). -/
def ParseLayout (layout : List Char) : Except String LayoutNode :=
  if ',' ∈ layout then
    let rest := (layout.dropWhile (· != ',')).tail
    match parseNode rest (6 * rest.length + 5) with
    | Option.none => .error "internal: out of fuel"
    | some (.error e) => .error e
    | some (.ok (node, _)) => .ok node
  else .error "invalid layout: no checksum separator"

/-- `strings.Join(strs, ",")` from `buildNodeString`. -/
def joinComma : List (List Char) → List Char
  | [] => []
  | [s] => s
  | s :: ss => s ++ ',' :: joinComma ss

mutual

/-- `buildNodeString` from the source: `WxH,x,y` then `,paneID` for a
leaf or a bracketed comma-joined children list for a split. -/
def buildNodeString : LayoutNode → List Char
  | .mk w h x y pid st cs =>
    intStr w ++ 'x' :: intStr h ++ ',' :: intStr x ++ ',' :: intStr y ++
      match st with
      | SplitType.none => ',' :: intStr pid
      | SplitType.horizontal => '{' :: joinComma (buildChildrenStrings cs) ++ ['}']
      | SplitType.vertical => '[' :: joinComma (buildChildrenStrings cs) ++ [']']

/-- The strings of the children, in order. -/
def buildChildrenStrings : List LayoutNode → List (List Char)
  | [] => []
  | c :: cs => buildNodeString c :: buildChildrenStrings cs

end

/-- `BuildLayout` from the source: checksum of the body, comma, body. -/
def BuildLayout (node : LayoutNode) : List Char :=
  hex4 (calculateChecksum (buildNodeString node)) ++ ',' :: buildNodeString node

mutual

/-- `containsPane` from the source: the node's own pane id matches, or
some descendant's does.  (Note: split nodes carry pane id −1, which
this test also matches.) -/
def containsPane : LayoutNode → Int → Bool
  | .mk _ _ _ _ p _ cs, pid => p == pid || containsPaneList cs pid

/-- The children loop of `containsPane`. -/
def containsPaneList : List LayoutNode → Int → Bool
  | [], _ => false
  | c :: cs, pid => containsPane c pid || containsPaneList cs pid

end

mutual

/-- `countPanes` from the source: 1 for a leaf (`SplitNone`), the sum
over children otherwise.  (The Go `nil` guard has no counterpart for
pure trees.) -/
def countPanes : LayoutNode → Int
  | .mk _ _ _ _ _ st cs => if st = SplitType.none then 1 else countPanesList cs

/-- The children loop of `countPanes`. -/
def countPanesList : List LayoutNode → Int
  | [] => 0
  | c :: cs => countPanes c + countPanesList cs

end

mutual

/-- `copyLayoutNode` from the source: a deep copy (the identity on
pure trees, proved below). -/
def copyLayoutNode : LayoutNode → LayoutNode
  | .mk w h x y p st cs => .mk w h x y p st (copyLayoutList cs)

/-- The children loop of `copyLayoutNode`. -/
def copyLayoutList : List LayoutNode → List LayoutNode
  | [] => []
  | c :: cs => copyLayoutNode c :: copyLayoutList cs

end

mutual

/-- `updateChildWidths` from the source: set the node's width; a
vertical split propagates the width to every child, a horizontal
split leaves the children's own widths alone. -/
def updateChildWidths : LayoutNode → Int → LayoutNode
  | .mk _ h x y p st cs, w =>
    .mk w h x y p st (if st = SplitType.vertical then updateWidthsList cs w else cs)

/-- The children loop of `updateChildWidths`. -/
def updateWidthsList : List LayoutNode → Int → List LayoutNode
  | [], _ => []
  | c :: cs, w => updateChildWidths c w :: updateWidthsList cs w

end

mutual

/-- `updateChildHeights` from the source: mirror image of
`updateChildWidths` (horizontal splits propagate the height). -/
def updateChildHeights : LayoutNode → Int → LayoutNode
  | .mk w _ x y p st cs, h =>
    .mk w h x y p st (if st = SplitType.horizontal then updateHeightsList cs h else cs)

/-- The children loop of `updateChildHeights`. -/
def updateHeightsList : List LayoutNode → Int → List LayoutNode
  | [], _ => []
  | c :: cs, h => updateChildHeights c h :: updateHeightsList cs h

end

/-- Sum of the entries of a list except the one at position `a`
(`otherWidth`/`otherHeight` accumulation in the zoom functions);
`i` is the index of the first entry. -/
def sumExceptAux (i a : Nat) : List Int → Int
  | [] => 0
  | w :: ws => (if i = a then 0 else w) + sumExceptAux (i + 1) a ws

/-- The `newWidths`/`newHeights` distribution loop: the active child
gets `target`; others get a share of `remaining` proportional to
their original size when `otherW > 0`, else `remaining/fallbackDen`
(`fallbackDen` is `len(children)-1`).  Division is Go's truncating
`/`. -/
def distributeAux (activeIdx : Nat) (target remaining otherW fallbackDen : Int) :
    Nat → List Int → List Int
  | _, [] => []
  | i, w :: ws =>
    (if i = activeIdx then target
     else if otherW > 0 then Int.tdiv (w * remaining) otherW
     else Int.tdiv remaining fallbackDen) ::
      distributeAux activeIdx target remaining otherW fallbackDen (i + 1) ws

/-- The rounding fix-up: if the distributed sizes do not sum to
`available`, the difference is added to the active child's entry. -/
def adjustSizes (sizes : List Int) (activeIdx : Nat) (available : Int) : List Int :=
  if sizes.sum ≠ available then
    sizes.set activeIdx (sizes.getD activeIdx 0 + (available - sizes.sum))
  else sizes

/-- The final loop of `applyHorizontalZoom`: assign each child its new
width and running x position (`+1` for the border), and propagate the
width to descendants via `updateChildWidths`. -/
def applySizesH : Int → List LayoutNode → List Int → List LayoutNode
  | _, [], _ => []
  | _, cs, [] => cs
  | curX, c :: cs, w :: ws =>
    updateChildWidths (c.setX curX) w :: applySizesH (curX + w + 1) cs ws

/-- The final loop of `applyVerticalZoom` (heights and y positions). -/
def applySizesV : Int → List LayoutNode → List Int → List LayoutNode
  | _, [], _ => []
  | _, cs, [] => cs
  | curY, c :: cs, h :: hs =>
    updateChildHeights (c.setY curY) h :: applySizesV (curY + h + 1) cs hs

/-- `applyHorizontalZoom` from the source: no-op with ≤ 1 child,
otherwise distribute `available = width − borders` with the active
child at `available*zoomPercent/100`, fix rounding, and reposition. -/
def applyHorizontalZoom (node : LayoutNode) (activeIdx : Nat) (zoomPercent : Int) : LayoutNode :=
  if node.children.length ≤ 1 then node
  else
    let borders : Int := (node.children.length : Int) - 1
    let available := node.width - borders
    let target := Int.tdiv (available * zoomPercent) 100
    let otherWidth := sumExceptAux 0 activeIdx (node.children.map LayoutNode.width)
    let remaining := available - target
    let newWidths := adjustSizes
      (distributeAux activeIdx target remaining otherWidth borders 0
        (node.children.map LayoutNode.width))
      activeIdx available
    node.setChildren (applySizesH node.x node.children newWidths)

/-- `applyVerticalZoom` from the source: mirror image of
`applyHorizontalZoom` along the height axis. -/
def applyVerticalZoom (node : LayoutNode) (activeIdx : Nat) (zoomPercent : Int) : LayoutNode :=
  if node.children.length ≤ 1 then node
  else
    let borders : Int := (node.children.length : Int) - 1
    let available := node.height - borders
    let target := Int.tdiv (available * zoomPercent) 100
    let otherHeight := sumExceptAux 0 activeIdx (node.children.map LayoutNode.height)
    let remaining := available - target
    let newHeights := adjustSizes
      (distributeAux activeIdx target remaining otherHeight borders 0
        (node.children.map LayoutNode.height))
      activeIdx available
    node.setChildren (applySizesV node.y node.children newHeights)

/-- `ApplyZoomToLayout` from the source: deep-copy, find the first
child whose subtree contains the active pane, and zoom along the
root's split axis; unchanged copy when no child contains it. -/
def ApplyZoomToLayout (node : LayoutNode) (activePaneID zoomPercent : Int) : LayoutNode :=
  let result := copyLayoutNode node
  match result.children.findIdx? (fun c => containsPane c activePaneID) with
  | Option.none => result
  | some i =>
    if result.splitType = SplitType.horizontal then applyHorizontalZoom result i zoomPercent
    else if result.splitType = SplitType.vertical then applyVerticalZoom result i zoomPercent
    else result

mutual

/-- Height of a layout tree (1 + the tallest child); used as the fuel
bound for `applyNestedZoom`, whose Go recursion descends one tree
level per call. -/
def nodeHeight : LayoutNode → Nat
  | .mk _ _ _ _ _ _ cs => 1 + heightList cs

/-- Height of a forest: the tallest tree in it. -/
def heightList : List LayoutNode → Nat
  | [] => 0
  | c :: cs => max (nodeHeight c) (heightList cs)

end

/-- `applyNestedZoom` from the source, with fuel (one unit per tree
level; `nodeHeight` suffices, see the fuel-irrelevance lemma below):
find the first child containing the active pane; if it is a split
with > 1 children, zoom it along its own axis and recurse into it;
children after the first containing one are never visited. -/
def anzAux : Nat → LayoutNode → Int → Int → LayoutNode
  | 0, node, _, _ => node
  | fuel + 1, node, pid, zp =>
    match node.children.findIdx? (fun c => containsPane c pid) with
    | Option.none => node
    | some i =>
      match node.children[i]? with
      | Option.none => node
      | some child =>
        if 1 < child.children.length then
          match child.children.findIdx? (fun g => containsPane g pid) with
          | Option.none => node
          | some j =>
            let child1 :=
              if child.splitType = SplitType.horizontal then applyHorizontalZoom child j zp
              else if child.splitType = SplitType.vertical then applyVerticalZoom child j zp
              else child
            node.setChildren (node.children.set i (anzAux fuel child1 pid zp))
        else node

/-- `applyNestedZoom` at its sufficient fuel. -/
def applyNestedZoom (node : LayoutNode) (pid zp : Int) : LayoutNode :=
  anzAux (nodeHeight node) node pid zp

/-- `PaneInfo` from the source (`list-panes` record). -/
structure PaneInfo where
  id : String
  index : Int
  width : Int
  height : Int
  left : Int
  top : Int
  active : Bool
deriving DecidableEq, Repr

/-- `State` from the source: the persisted snapshot record. -/
structure State where
  enabled : Bool
  session : String
  window : String
  snapshot : List Char
deriving DecidableEq, Repr

/-- The tmux commands the orchestrator can issue; `ApplyZoom` is
modelled as the list of commands it sends to the host (queries are
read off a `Host` record, commands are collected in order). -/
inductive TmuxAction where
  | selectLayout (layout : List Char)
  | resizePaneWidth (id : String) (w : Int)
  | resizePaneHeight (id : String) (h : Int)
  | saveState (s : State)
deriving DecidableEq, Repr

/-- The host multiplexer's observable state: what the queries used by
`ApplyZoom`/`CaptureSnapshot` return.  Queries are modelled as total
(the boundary values are the record's fields); the configured zoom
percent stands for `GetZoomPercent()`'s already-validated result. -/
structure Host where
  session : String
  window : String
  activePaneID : Int
  paneCount : Int
  windowLayout : List Char
  zoomPercent : Int
  panes : List PaneInfo
  windowWidth : Int
  windowHeight : Int
deriving Repr

/-- `column` from the source (fallback path). -/
structure ZoomColumn where
  left : Int
  width : Int
  panes : List PaneInfo
deriving DecidableEq, Repr

/-- `row` from the source (fallback path). -/
structure ZoomRow where
  top : Int
  height : Int
  panes : List PaneInfo
deriving DecidableEq, Repr

/-- One step of `findColumns`' grouping: append the pane to its
column (keyed by left offset, width = max pane width) or start a new
one. -/
def addPaneToColumns : List ZoomColumn → PaneInfo → List ZoomColumn
  | [], p => [⟨p.left, p.width, [p]⟩]
  | c :: cs, p =>
    if c.left = p.left then
      ⟨c.left, if p.width > c.width then p.width else c.width, c.panes ++ [p]⟩ :: cs
    else c :: addPaneToColumns cs p

/-- Insertion step for sorting columns by left offset. -/
def insertColByLeft (c : ZoomColumn) : List ZoomColumn → List ZoomColumn
  | [] => [c]
  | d :: ds => if c.left < d.left then c :: d :: ds else d :: insertColByLeft c ds

/-- Sort columns by left offset (Go uses `sort.Slice`; left offsets
are unique keys, so any comparison sort gives the same list). -/
def sortColsByLeft : List ZoomColumn → List ZoomColumn
  | [] => []
  | c :: cs => insertColByLeft c (sortColsByLeft cs)

/-- `findColumns` from the source: group panes by left offset (Go's
map iteration order is immaterial after sorting by the unique key),
then sort columns by left offset. -/
def findColumns (panes : List PaneInfo) : List ZoomColumn :=
  sortColsByLeft (panes.foldl addPaneToColumns [])

/-- One step of `findRowsInColumn`'s grouping. -/
def addPaneToRows : List ZoomRow → PaneInfo → List ZoomRow
  | [], p => [⟨p.top, p.height, [p]⟩]
  | r :: rs, p =>
    if r.top = p.top then
      ⟨r.top, if p.height > r.height then p.height else r.height, r.panes ++ [p]⟩ :: rs
    else r :: addPaneToRows rs p

/-- Insertion step for sorting rows by top offset. -/
def insertRowByTop (r : ZoomRow) : List ZoomRow → List ZoomRow
  | [] => [r]
  | d :: ds => if r.top < d.top then r :: d :: ds else d :: insertRowByTop r ds

/-- Sort rows by top offset. -/
def sortRowsByTop : List ZoomRow → List ZoomRow
  | [] => []
  | r :: rs => insertRowByTop r (sortRowsByTop rs)

/-- `findRowsInColumn` from the source. -/
def findRowsInColumn (columnPanes : List PaneInfo) : List ZoomRow :=
  sortRowsByTop (columnPanes.foldl addPaneToRows [])

/-- `resizeColumnsProportionally` from the source: grow only the
active column's first pane; tmux redistributes the neighbours. -/
def resizeColumnsProportionally (columns : List ZoomColumn) (activeIdx : Nat)
    (targetWidth : Int) : List TmuxAction :=
  if columns.length ≤ 1 then []
  else
    match columns[activeIdx]? with
    | Option.none => []
    | some col =>
      match col.panes with
      | [] => []
      | p :: _ => [TmuxAction.resizePaneWidth p.id targetWidth]

/-- `resizeRowsProportionally` from the source. -/
def resizeRowsProportionally (rows : List ZoomRow) (activeIdx : Nat)
    (targetHeight : Int) : List TmuxAction :=
  if rows.length ≤ 1 then []
  else
    match rows[activeIdx]? with
    | Option.none => []
    | some r =>
      match r.panes with
      | [] => []
      | p :: _ => [TmuxAction.resizePaneHeight p.id targetHeight]

/-- `applyProportionalZoom` from the source: resize the active column
when there are several columns, then the active row within the active
column when that column holds several panes. -/
def applyProportionalZoom (panes : List PaneInfo) (active : PaneInfo)
    (winWidth _winHeight zoomPercent : Int) : List TmuxAction :=
  let columns := findColumns panes
  let targetWidth := Int.tdiv (winWidth * zoomPercent) 100
  let activeColIdx? := columns.findIdx? (fun col => col.left = active.left)
  let colActions :=
    match activeColIdx? with
    | Option.none => []
    | some i =>
      if 1 < columns.length then resizeColumnsProportionally columns i targetWidth else []
  let rowActions :=
    match activeColIdx? with
    | Option.none => []
    | some i =>
      match columns[i]? with
      | Option.none => []
      | some activeColumn =>
        if 1 < activeColumn.panes.length then
          let rows := findRowsInColumn activeColumn.panes
          let colHeight := (activeColumn.panes.map PaneInfo.height).sum +
            ((rows.length : Int) - 1)
          let targetHeight := Int.tdiv (colHeight * zoomPercent) 100
          match rows.findIdx? (fun r => r.top = active.top) with
          | Option.none => []
          | some j =>
            if 1 < rows.length then resizeRowsProportionally rows j targetHeight else []
        else []
  colActions ++ rowActions

/-- `applyZoomFallback` from the source: per-pane geometry strategy
used when the snapshot text does not decode. -/
def applyZoomFallback (host : Host) : List TmuxAction :=
  match host.panes.find? (fun p => p.active) with
  | Option.none => []
  | some active =>
    applyProportionalZoom host.panes active host.windowWidth host.windowHeight
      host.zoomPercent

/-- `CaptureSnapshot` from the source: current layout text plus
session/window identity, enabled. -/
def CaptureSnapshot (host : Host) : State :=
  ⟨true, host.session, host.window, host.windowLayout⟩

/-- `RestoreSnapshot` from the source: replay the saved layout text,
nothing when the snapshot is empty. -/
def RestoreSnapshot (state : State) : List TmuxAction :=
  if state.snapshot = [] then [] else [TmuxAction.selectLayout state.snapshot]

/-- The zoom pipeline of `ApplyZoom` once a decoded tree is in hand:
root-level zoom, nested zoom, serialize, `select-layout`. -/
def zoomActions (host : Host) (tree : LayoutNode) : List TmuxAction :=
  let zoomed := ApplyZoomToLayout tree host.activePaneID host.zoomPercent
  let zoomed2 := applyNestedZoom zoomed host.activePaneID host.zoomPercent
  [TmuxAction.selectLayout (BuildLayout zoomed2)]

/-- `ApplyZoom` from the source, as commands issued plus a success
flag: no-op when the live pane count is ≤ 1 or the live session/window
differs from the snapshot's; fallback path when the snapshot does not
decode; automatic re-snapshot (persisted first) when the live pane
count diverges from the decoded leaf count; otherwise the zoom
pipeline.  Host commands are modelled as succeeding. -/
def ApplyZoom (host : Host) (state : State) : List TmuxAction × Bool :=
  if host.paneCount ≤ 1 then ([], true)
  else if host.session ≠ state.session ∨ host.window ≠ state.window then ([], true)
  else
    match ParseLayout state.snapshot with
    | .error _ => (RestoreSnapshot state ++ applyZoomFallback host, true)
    | .ok layoutTree =>
      if countPanes layoutTree ≠ host.paneCount then
        let newState := CaptureSnapshot host
        match ParseLayout newState.snapshot with
        | .error _ => ([TmuxAction.saveState newState], false)
        | .ok tree2 => (TmuxAction.saveState newState :: zoomActions host tree2, true)
      else (zoomActions host layoutTree, true)

/-- Spec-side description of one checksum step: "rotate the
accumulator right by one bit (the bit shifted out of the low end
re-enters at the high end)". -/
def rotateRight16 (a : Nat) : Nat :=
  a / 2 + a % 2 * 32768

/-- Spec-side checksum: rotate right, "then add the byte's unsigned
value into the accumulator (16-bit wraparound)". -/
def checksumSpec (s : List Char) : Nat :=
  s.foldl (fun acc c => (rotateRight16 acc + c.toNat) % 65536) 0

/-- Lowercase hexadecimal digit test (for the claim that the encoder
prepends exactly four lowercase hex digits). -/
def isLowerHexDigit (c : Char) : Bool :=
  ('0' ≤ c && c ≤ '9') || ('a' ≤ c && c ≤ 'f')

mutual

/-- The size-conservation invariant of the spec, as a checker: every
width-split satisfies `sum(child.width) + (n−1) = width`, every
height-split the mirror equation, at every depth. -/
def sizeOk : LayoutNode → Bool
  | .mk w h _ _ _ st cs =>
    (match st with
     | SplitType.none => true
     | SplitType.horizontal => (cs.map LayoutNode.width).sum + ((cs.length : Int) - 1) == w
     | SplitType.vertical => (cs.map LayoutNode.height).sum + ((cs.length : Int) - 1) == h)
    && sizeOkList cs

/-- `sizeOk` over a forest. -/
def sizeOkList : List LayoutNode → Bool
  | [] => true
  | c :: cs => sizeOk c && sizeOkList cs

end

mutual

/-- The pane ids of the leaves (`SplitNone` nodes) of a tree, in
order; used to state claims about "the pane id of any leaf". -/
def leafPaneIDs : LayoutNode → List Int
  | .mk _ _ _ _ p st cs => if st = SplitType.none then [p] else leafPaneIDsList cs

/-- `leafPaneIDs` over a forest. -/
def leafPaneIDsList : List LayoutNode → List Int
  | [] => []
  | c :: cs => leafPaneIDs c ++ leafPaneIDsList cs

end

mutual

/-- Trees in the image of the parser: leaves carry no children, split
nodes carry pane id −1.  Every tree `parseNode` returns satisfies
this, and on such trees serialisation inverts parsing. -/
inductive GoodTree : LayoutNode → Prop where
  | leaf (w h x y p : Int) : GoodTree (.mk w h x y p SplitType.none [])
  | hsplit (w h x y : Int) (cs : List LayoutNode) :
      GoodForest cs → GoodTree (.mk w h x y (-1) SplitType.horizontal cs)
  | vsplit (w h x y : Int) (cs : List LayoutNode) :
      GoodForest cs → GoodTree (.mk w h x y (-1) SplitType.vertical cs)

/-- All trees of a forest are in the parser's image. -/
inductive GoodForest : List LayoutNode → Prop where
  | nil : GoodForest []
  | cons {c : LayoutNode} {cs : List LayoutNode} :
      GoodTree c → GoodForest cs → GoodForest (c :: cs)

end

/-- Remainders that can legally follow a serialised node inside a
layout string: end of input, or a terminator the pane-id scan stops
at (`,`, closing bracket). -/
def PaneEndOk (r : List Char) : Prop :=
  r = [] ∨ ∃ c r2, r = c :: r2 ∧ isPaneEnd c = true

/-- The value of the Go parser's string variable after stripping the
checksum field (the `rest` that `ParseLayout` hands to `parseNode`). -/
def restAfterChecksum (layout : List Char) : List Char :=
  (layout.dropWhile (· != ',')).tail

/-- The parser's remaining input after consuming the width field and
its `x` separator. -/
def restAfterWidth (layout : List Char) : List Char :=
  ((restAfterChecksum layout).dropWhile (· != 'x')).tail

/-- The parser's remaining input after consuming the height field and
its comma. -/
def restAfterHeight (layout : List Char) : List Char :=
  ((restAfterWidth layout).dropWhile (· != ',')).tail

/-- The parser's remaining input after consuming the `x` coordinate
and its comma. -/
def restAfterX (layout : List Char) : List Char :=
  ((restAfterHeight layout).dropWhile (· != ',')).tail

/-- The parser's remaining input after scanning past the `y`
coordinate (the string the trailing `switch` of `parseNode` sees). -/
def restAfterY (layout : List Char) : List Char :=
  (restAfterX layout).dropWhile (fun c => !isNodeEnd c)

/-- The size list both zoom functions compute from the children's
current sizes along the split axis: proportional distribution then
the rounding fix-up (`newWidths`/`newHeights` as finally applied). -/
def zoomSizes (ws : List Int) (a : Nat) (av zp : Int) : List Int :=
  adjustSizes
    (distributeAux a (Int.tdiv (av * zp) 100) (av - Int.tdiv (av * zp) 100)
      (sumExceptAux 0 a ws) ((ws.length : Int) - 1) 0 ws)
    a av

/-- The decoded tree of the four-pane example layout
`b2d9,255x61,0,0{84x61,0,0[84x30,0,0,26,84x30,0,31,41],85x61,85,0,36,84x61,171,0,42}`. -/
def exampleTree4 : LayoutNode :=
  .mk 255 61 0 0 (-1) .horizontal
    [.mk 84 61 0 0 (-1) .vertical
      [.mk 84 30 0 0 26 .none [], .mk 84 30 0 31 41 .none []],
     .mk 85 61 85 0 36 .none [], .mk 84 61 171 0 42 .none []]

/-- A tree whose first child is itself a split (so carries pane id −1). -/
def exampleSplitChild : LayoutNode :=
  .mk 199 53 0 0 (-1) .horizontal
    [.mk 99 53 0 0 (-1) .vertical
      [.mk 99 26 0 0 1 .none [], .mk 99 26 0 27 2 .none []],
     .mk 99 53 100 0 3 .none []]

/-- A plain two-pane side-by-side tree. -/
def exampleTwoPane : LayoutNode :=
  .mk 199 53 0 0 (-1) .horizontal
    [.mk 99 53 0 0 1 .none [], .mk 99 53 100 0 2 .none []]

/-- A decodable tree violating size conservation at the root
(3 + 3 + 1 ≠ 10). -/
def exampleBadSum : LayoutNode :=
  .mk 10 10 0 0 (-1) .horizontal
    [.mk 3 10 0 0 1 .none [], .mk 3 10 4 0 2 .none []]

/-- A well-formed tree with a horizontal split nested inside a
vertical split inside the horizontal root. -/
def exampleNested : LayoutNode :=
  .mk 255 61 0 0 (-1) .horizontal
    [.mk 84 61 0 0 (-1) .vertical
      [.mk 84 30 0 0 (-1) .horizontal
        [.mk 41 30 0 0 1 .none [], .mk 42 30 42 0 2 .none []],
       .mk 84 30 0 31 3 .none []],
     .mk 85 61 85 0 4 .none [], .mk 84 61 171 0 5 .none []]

/-- A two-pane tree with unequal children and an odd available width. -/
def exampleUneven : LayoutNode :=
  .mk 6 5 0 0 (-1) .horizontal
    [.mk 2 5 0 0 1 .none [], .mk 3 5 3 0 2 .none []]

/-! ### Lemmas and claim theorems -/

theorem hexDigit_isLowerHex (n : Nat) (h : n < 16) :
    isLowerHexDigit (hexDigit n) = true := by
  interval_cases n <;> decide

/-- C5: the checksum over any string is computed by starting from a
16-bit accumulator 0 and, per byte, rotating right one bit (low bit
re-entering at the high end) then adding the byte modulo 2^16; the
encoder prepends it, comma-separated, rendered as exactly four
lowercase hexadecimal digits before the body. -/
theorem checksum_rotate_add_hex (s : List Char) (node : LayoutNode) :
    calculateChecksum s = checksumSpec s ∧
    BuildLayout node =
      hex4 (calculateChecksum (buildNodeString node)) ++ ',' :: buildNodeString node ∧
    (hex4 (calculateChecksum s)).length = 4 ∧
    (∀ c ∈ hex4 (calculateChecksum s), isLowerHexDigit c = true) := by
  refine ⟨rfl, rfl, rfl, ?_⟩
  intro c hc
  simp only [hex4, List.mem_cons, List.not_mem_nil, or_false] at hc
  rcases hc with rfl | rfl | rfl | rfl <;>
    exact hexDigit_isLowerHex _ (Nat.mod_lt _ (by omega))

/-- C9: `ApplyZoom` issues no commands and succeeds when the live pane
count is ≤ 1, and likewise when the live session or window identifier
differs from the snapshot state's. -/
theorem applyZoom_early_noop (host : Host) (state : State) :
    (host.paneCount ≤ 1 → ApplyZoom host state = ([], true)) ∧
    (host.session ≠ state.session ∨ host.window ≠ state.window →
      ApplyZoom host state = ([], true)) := by
  constructor
  · intro h
    unfold ApplyZoom
    rw [if_pos h]
  · intro h
    unfold ApplyZoom
    by_cases hp : host.paneCount ≤ 1
    · rw [if_pos hp]
    · rw [if_neg hp, if_pos h]

/-- Witness for C9 at a one-pane host. -/
theorem applyZoom_early_noop_witness :
    ApplyZoom ⟨"s", "1", 3, 1, [], 65, [], 100, 50⟩ ⟨true, "s", "1", []⟩ = ([], true) :=
  (applyZoom_early_noop ⟨"s", "1", 3, 1, [], 65, [], 100, 50⟩ ⟨true, "s", "1", []⟩).1
    (by decide)

mutual

theorem copyLayoutNode_eq : ∀ (t : LayoutNode), copyLayoutNode t = t
  | .mk w h x y p st cs => by rw [copyLayoutNode, copyLayoutList_eq]

theorem copyLayoutList_eq : ∀ (cs : List LayoutNode), copyLayoutList cs = cs
  | [] => rfl
  | c :: cs => by rw [copyLayoutList, copyLayoutNode_eq, copyLayoutList_eq]

end

theorem containsPaneList_false {cs : List LayoutNode} {pid : Int}
    (h : containsPaneList cs pid = false) : ∀ c ∈ cs, containsPane c pid = false := by
  induction cs with
  | nil => intro c hc; exact absurd hc (List.not_mem_nil c)
  | cons d ds ih =>
    rw [containsPaneList, Bool.or_eq_false_iff] at h
    intro c hc
    rcases List.mem_cons.mp hc with rfl | hc'
    · exact h.1
    · exact ih h.2 c hc'

/-- C4 (amended): if the target pane id does not occur as the `PaneID`
field of any node of the tree (`containsPane` is false at the root),
`ApplyZoomToLayout` returns the tree unchanged. -/
theorem applyZoom_absent_target (t : LayoutNode) (pid zp : Int)
    (h : containsPane t pid = false) :
    ApplyZoomToLayout t pid zp = t := by
  have hcs : t.children.findIdx? (fun c => containsPane c pid) = Option.none := by
    rw [List.findIdx?_eq_none_iff]
    cases t with
    | mk w hh x y p st cs =>
      rw [containsPane, Bool.or_eq_false_iff] at h
      exact containsPaneList_false h.2
  unfold ApplyZoomToLayout
  simp only [copyLayoutNode_eq, hcs]

/-- C4 counterexample: pane id −1 is not the pane id of any leaf of
this decoded tree, yet `ApplyZoomToLayout` changes the tree (the
vertical-split child itself carries `PaneID` −1, which
`containsPane` matches). -/
theorem applyZoom_absent_target_counterexample :
    ParseLayout
      "1234,199x53,0,0{99x53,0,0[99x26,0,0,1,99x26,0,27,2],99x53,100,0,3}".toList =
      .ok exampleSplitChild ∧
    (-1 : Int) ∉ leafPaneIDs exampleSplitChild ∧
    ApplyZoomToLayout exampleSplitChild (-1) 65 ≠ exampleSplitChild := by
  refine ⟨by decide, by decide, by decide⟩

/-- Witness for C4 (amended): pane id 7 occurs nowhere in the
two-pane tree, and the zoom leaves the tree unchanged. -/
theorem applyZoom_absent_target_witness :
    containsPane exampleTwoPane 7 = false ∧
    ApplyZoomToLayout exampleTwoPane 7 65 = exampleTwoPane :=
  ⟨by decide, applyZoom_absent_target exampleTwoPane 7 65 (by decide)⟩

mutual

theorem countPanes_updateChildWidths : ∀ (c : LayoutNode) (w : Int),
    countPanes (updateChildWidths c w) = countPanes c
  | .mk _ ch cx cy cp cst ccs, w => by
    rw [updateChildWidths, countPanes, countPanes]
    by_cases h : cst = SplitType.vertical
    · rw [if_pos h, countPanesList_updateWidthsList]
    · rw [if_neg h]

theorem countPanesList_updateWidthsList : ∀ (cs : List LayoutNode) (w : Int),
    countPanesList (updateWidthsList cs w) = countPanesList cs
  | [], _ => rfl
  | c :: cs, w => by
    rw [updateWidthsList, countPanesList, countPanesList,
      countPanes_updateChildWidths, countPanesList_updateWidthsList]

end

mutual

theorem countPanes_updateChildHeights : ∀ (c : LayoutNode) (h : Int),
    countPanes (updateChildHeights c h) = countPanes c
  | .mk cw _ cx cy cp cst ccs, h => by
    rw [updateChildHeights, countPanes, countPanes]
    by_cases hh : cst = SplitType.horizontal
    · rw [if_pos hh, countPanesList_updateHeightsList]
    · rw [if_neg hh]

theorem countPanesList_updateHeightsList : ∀ (cs : List LayoutNode) (h : Int),
    countPanesList (updateHeightsList cs h) = countPanesList cs
  | [], _ => rfl
  | c :: cs, h => by
    rw [updateHeightsList, countPanesList, countPanesList,
      countPanes_updateChildHeights, countPanesList_updateHeightsList]

end

theorem countPanes_setX (c : LayoutNode) (v : Int) :
    countPanes (c.setX v) = countPanes c := by
  cases c
  rfl

theorem countPanes_setY (c : LayoutNode) (v : Int) :
    countPanes (c.setY v) = countPanes c := by
  cases c
  rfl

theorem countPanesList_applySizesH (cs : List LayoutNode) :
    ∀ (x : Int) (ws : List Int), countPanesList (applySizesH x cs ws) = countPanesList cs := by
  induction cs with
  | nil => intro x ws; cases ws <;> rfl
  | cons c cs ih =>
    intro x ws
    cases ws with
    | nil => rfl
    | cons w ws =>
      rw [applySizesH, countPanesList, countPanesList, countPanes_updateChildWidths,
        countPanes_setX, ih]

theorem countPanesList_applySizesV (cs : List LayoutNode) :
    ∀ (y : Int) (hs : List Int), countPanesList (applySizesV y cs hs) = countPanesList cs := by
  induction cs with
  | nil => intro y hs; cases hs <;> rfl
  | cons c cs ih =>
    intro y hs
    cases hs with
    | nil => rfl
    | cons h hs =>
      rw [applySizesV, countPanesList, countPanesList, countPanes_updateChildHeights,
        countPanes_setY, ih]

theorem countPanes_applyHorizontalZoom (n : LayoutNode) (i : Nat) (zp : Int) :
    countPanes (applyHorizontalZoom n i zp) = countPanes n := by
  unfold applyHorizontalZoom
  by_cases h : n.children.length ≤ 1
  · rw [if_pos h]
  · rw [if_neg h]
    cases n with
    | mk w hh x y p st cs =>
      simp only [LayoutNode.setChildren, LayoutNode.children, countPanes,
        countPanesList_applySizesH]

theorem countPanes_applyVerticalZoom (n : LayoutNode) (i : Nat) (zp : Int) :
    countPanes (applyVerticalZoom n i zp) = countPanes n := by
  unfold applyVerticalZoom
  by_cases h : n.children.length ≤ 1
  · rw [if_pos h]
  · rw [if_neg h]
    cases n with
    | mk w hh x y p st cs =>
      simp only [LayoutNode.setChildren, LayoutNode.children, countPanes,
        countPanesList_applySizesV]

theorem countPanesList_set {cs : List LayoutNode} {i : Nat} {c c' : LayoutNode}
    (hget : cs[i]? = some c) (hc : countPanes c' = countPanes c) :
    countPanesList (cs.set i c') = countPanesList cs := by
  induction cs generalizing i with
  | nil => simp at hget
  | cons d ds ih =>
    cases i with
    | zero =>
      simp only [List.getElem?_cons_zero, Option.some.injEq] at hget
      rw [List.set_cons_zero, countPanesList, countPanesList, hc, hget]
    | succ j =>
      simp only [List.getElem?_cons_succ] at hget
      rw [List.set_cons_succ, countPanesList, countPanesList, ih hget]

theorem countPanes_anzAux (f : Nat) :
    ∀ (node : LayoutNode) (pid zp : Int), countPanes (anzAux f node pid zp) = countPanes node := by
  induction f with
  | zero => intro node pid zp; rfl
  | succ f ih =>
    intro node pid zp
    rw [anzAux]
    cases hfind : node.children.findIdx? (fun c => containsPane c pid) with
    | none => rfl
    | some i =>
      cases hget : node.children[i]? with
      | none => simp only [hget]
      | some child =>
        simp only [hget]
        by_cases hlen : 1 < child.children.length
        · rw [if_pos hlen]
          cases hg : child.children.findIdx? (fun g => containsPane g pid) with
          | none => rfl
          | some j =>
            have hchild1 :
                countPanes (anzAux f
                  (if child.splitType = SplitType.horizontal then applyHorizontalZoom child j zp
                   else if child.splitType = SplitType.vertical then applyVerticalZoom child j zp
                   else child) pid zp) = countPanes child := by
              rw [ih]
              by_cases h1 : child.splitType = SplitType.horizontal
              · rw [if_pos h1, countPanes_applyHorizontalZoom]
              · rw [if_neg h1]
                by_cases h2 : child.splitType = SplitType.vertical
                · rw [if_pos h2, countPanes_applyVerticalZoom]
                · rw [if_neg h2]
            cases node with
            | mk w hh x y p st cs =>
              simp only [LayoutNode.setChildren, LayoutNode.children, countPanes] at hget ⊢
              rw [countPanesList_set hget hchild1]
        · rw [if_neg hlen]

/-- C8: the zoom transform preserves the number of leaf panes, both
after `ApplyZoomToLayout` alone and after the full pipeline with
`applyNestedZoom`, for every tree, target (present or absent) and
percent. -/
theorem countPanes_zoom_invariant (t : LayoutNode) (pid zp : Int) :
    countPanes (ApplyZoomToLayout t pid zp) = countPanes t ∧
    countPanes (applyNestedZoom (ApplyZoomToLayout t pid zp) pid zp) = countPanes t := by
  have hmain : countPanes (ApplyZoomToLayout t pid zp) = countPanes t := by
    unfold ApplyZoomToLayout
    simp only [copyLayoutNode_eq]
    cases hfind : t.children.findIdx? (fun c => containsPane c pid) with
    | none => rfl
    | some i =>
      show countPanes
        (if t.splitType = SplitType.horizontal then applyHorizontalZoom t i zp
         else if t.splitType = SplitType.vertical then applyVerticalZoom t i zp
         else t) = countPanes t
      by_cases h1 : t.splitType = SplitType.horizontal
      · rw [if_pos h1, countPanes_applyHorizontalZoom]
      · rw [if_neg h1]
        by_cases h2 : t.splitType = SplitType.vertical
        · rw [if_pos h2, countPanes_applyVerticalZoom]
        · rw [if_neg h2]
  exact ⟨hmain, by rw [applyNestedZoom, countPanes_anzAux, hmain]⟩

theorem width_updateChildWidths (c : LayoutNode) (w : Int) :
    (updateChildWidths c w).width = w := by
  cases c
  rfl

theorem height_updateChildHeights (c : LayoutNode) (h : Int) :
    (updateChildHeights c h).height = h := by
  cases c
  rfl

theorem width_setChildren (n : LayoutNode) (cs : List LayoutNode) :
    (n.setChildren cs).width = n.width := by
  cases n
  rfl

theorem height_setChildren (n : LayoutNode) (cs : List LayoutNode) :
    (n.setChildren cs).height = n.height := by
  cases n
  rfl

theorem children_setChildren (n : LayoutNode) (cs : List LayoutNode) :
    (n.setChildren cs).children = cs := by
  cases n
  rfl

theorem applySizesH_map_width (cs : List LayoutNode) :
    ∀ (x : Int) (ws : List Int), ws.length = cs.length →
      (applySizesH x cs ws).map LayoutNode.width = ws := by
  induction cs with
  | nil =>
    intro x ws h
    rw [List.length_nil, List.length_eq_zero] at h
    rw [h]
    rfl
  | cons c cs ih =>
    intro x ws h
    cases ws with
    | nil => simp at h
    | cons w ws =>
      rw [applySizesH, List.map_cons, width_updateChildWidths,
        ih _ ws (by simpa using h)]

theorem applySizesV_map_height (cs : List LayoutNode) :
    ∀ (y : Int) (hs : List Int), hs.length = cs.length →
      (applySizesV y cs hs).map LayoutNode.height = hs := by
  induction cs with
  | nil =>
    intro y hs h
    rw [List.length_nil, List.length_eq_zero] at h
    rw [h]
    rfl
  | cons c cs ih =>
    intro y hs h
    cases hs with
    | nil => simp at h
    | cons hh hs =>
      rw [applySizesV, List.map_cons, height_updateChildHeights,
        ih _ hs (by simpa using h)]

theorem applySizesH_length (cs : List LayoutNode) :
    ∀ (x : Int) (ws : List Int), (applySizesH x cs ws).length = cs.length := by
  induction cs with
  | nil => intro x ws; cases ws <;> rfl
  | cons c cs ih =>
    intro x ws
    cases ws with
    | nil => rfl
    | cons w ws => rw [applySizesH, List.length_cons, List.length_cons, ih]

theorem applySizesV_length (cs : List LayoutNode) :
    ∀ (y : Int) (hs : List Int), (applySizesV y cs hs).length = cs.length := by
  induction cs with
  | nil => intro y hs; cases hs <;> rfl
  | cons c cs ih =>
    intro y hs
    cases hs with
    | nil => rfl
    | cons h hs => rw [applySizesV, List.length_cons, List.length_cons, ih]

theorem distributeAux_length (a : Nat) (T r o fb : Int) :
    ∀ (i : Nat) (ws : List Int), (distributeAux a T r o fb i ws).length = ws.length := by
  intro i ws
  induction ws generalizing i with
  | nil => rfl
  | cons w ws ih => rw [distributeAux, List.length_cons, List.length_cons, ih]

theorem adjustSizes_length (l : List Int) (a : Nat) (av : Int) :
    (adjustSizes l a av).length = l.length := by
  unfold adjustSizes
  by_cases h : l.sum ≠ av
  · rw [if_pos h, List.length_set]
  · rw [if_neg h]

theorem sum_set_int (l : List Int) :
    ∀ (i : Nat) (v : Int), i < l.length → (l.set i v).sum = l.sum - l.getD i 0 + v := by
  induction l with
  | nil => intro i v h; simp at h
  | cons w ws ih =>
    intro i v h
    cases i with
    | zero =>
      rw [List.set_cons_zero, List.sum_cons, List.sum_cons, List.getD_cons_zero]
      ring
    | succ j =>
      rw [List.set_cons_succ, List.sum_cons, List.sum_cons, List.getD_cons_succ,
        ih j v (by simpa using h)]
      ring

theorem adjustSizes_sum (l : List Int) (a : Nat) (av : Int) (ha : a < l.length) :
    (adjustSizes l a av).sum = av := by
  unfold adjustSizes
  by_cases h : l.sum ≠ av
  · rw [if_pos h, sum_set_int l a _ ha]
    ring
  · rw [if_neg h]
    omega

theorem zoomSizes_length (ws : List Int) (a : Nat) (av zp : Int) :
    (zoomSizes ws a av zp).length = ws.length := by
  unfold zoomSizes
  rw [adjustSizes_length, distributeAux_length]

theorem zoomSizes_sum (ws : List Int) (a : Nat) (av zp : Int) (ha : a < ws.length) :
    (zoomSizes ws a av zp).sum = av := by
  unfold zoomSizes
  rw [adjustSizes_sum]
  rw [distributeAux_length]
  exact ha

theorem applyHorizontalZoom_eq (n : LayoutNode) (i : Nat) (zp : Int)
    (h : ¬ n.children.length ≤ 1) :
    applyHorizontalZoom n i zp =
      n.setChildren (applySizesH n.x n.children
        (zoomSizes (n.children.map LayoutNode.width) i
          (n.width - ((n.children.length : Int) - 1)) zp)) := by
  unfold applyHorizontalZoom zoomSizes
  rw [if_neg h, List.length_map]

theorem applyVerticalZoom_eq (n : LayoutNode) (i : Nat) (zp : Int)
    (h : ¬ n.children.length ≤ 1) :
    applyVerticalZoom n i zp =
      n.setChildren (applySizesV n.y n.children
        (zoomSizes (n.children.map LayoutNode.height) i
          (n.height - ((n.children.length : Int) - 1)) zp)) := by
  unfold applyVerticalZoom zoomSizes
  rw [if_neg h, List.length_map]

theorem applyHorizontalZoom_conservation (n : LayoutNode) (i : Nat) (zp : Int)
    (hlen : 2 ≤ n.children.length) (hi : i < n.children.length) :
    ((applyHorizontalZoom n i zp).children.map LayoutNode.width).sum +
      (((applyHorizontalZoom n i zp).children.length : Int) - 1) =
      (applyHorizontalZoom n i zp).width := by
  have hnot : ¬ n.children.length ≤ 1 := by omega
  rw [applyHorizontalZoom_eq n i zp hnot, children_setChildren, width_setChildren,
    applySizesH_map_width _ _ _ (by rw [zoomSizes_length, List.length_map]),
    zoomSizes_sum _ _ _ _ (by rw [List.length_map]; exact hi),
    applySizesH_length]
  ring

theorem applyVerticalZoom_conservation (n : LayoutNode) (i : Nat) (zp : Int)
    (hlen : 2 ≤ n.children.length) (hi : i < n.children.length) :
    ((applyVerticalZoom n i zp).children.map LayoutNode.height).sum +
      (((applyVerticalZoom n i zp).children.length : Int) - 1) =
      (applyVerticalZoom n i zp).height := by
  have hnot : ¬ n.children.length ≤ 1 := by omega
  rw [applyVerticalZoom_eq n i zp hnot, children_setChildren, height_setChildren,
    applySizesV_map_height _ _ _ (by rw [zoomSizes_length, List.length_map]),
    zoomSizes_sum _ _ _ _ (by rw [List.length_map]; exact hi),
    applySizesV_length]
  ring

/-- `applyHorizontalZoom` never changes the node's own width. -/
theorem width_applyHorizontalZoom (n : LayoutNode) (i : Nat) (zp : Int) :
    (applyHorizontalZoom n i zp).width = n.width := by
  rw [applyHorizontalZoom]
  split
  · rfl
  · simp only [width_setChildren]

/-- `applyHorizontalZoom` never changes the node's own height. -/
theorem height_applyHorizontalZoom (n : LayoutNode) (i : Nat) (zp : Int) :
    (applyHorizontalZoom n i zp).height = n.height := by
  rw [applyHorizontalZoom]
  split
  · rfl
  · simp only [height_setChildren]

/-- `applyVerticalZoom` never changes the node's own width. -/
theorem width_applyVerticalZoom (n : LayoutNode) (i : Nat) (zp : Int) :
    (applyVerticalZoom n i zp).width = n.width := by
  rw [applyVerticalZoom]
  split
  · rfl
  · simp only [width_setChildren]

/-- `applyVerticalZoom` never changes the node's own height. -/
theorem height_applyVerticalZoom (n : LayoutNode) (i : Nat) (zp : Int) :
    (applyVerticalZoom n i zp).height = n.height := by
  rw [applyVerticalZoom]
  split
  · rfl
  · simp only [height_setChildren]

/-- `applyNestedZoom` never changes the node's own width. -/
theorem width_anzAux (f : Nat) (n : LayoutNode) (pid zp : Int) :
    (anzAux f n pid zp).width = n.width := by
  cases f with
  | zero => rfl
  | succ f =>
    rw [anzAux]
    split
    · rfl
    split
    · rfl
    split
    · split
      · rfl
      · simp only [width_setChildren]
    · rfl

/-- `applyNestedZoom` never changes the node's own height. -/
theorem height_anzAux (f : Nat) (n : LayoutNode) (pid zp : Int) :
    (anzAux f n pid zp).height = n.height := by
  cases f with
  | zero => rfl
  | succ f =>
    rw [anzAux]
    split
    · rfl
    split
    · rfl
    split
    · split
      · rfl
      · simp only [height_setChildren]
    · rfl

/-- Setting an index to the value already stored there is a no-op. -/
theorem list_set_self {α : Type} (l : List α) (i : Nat) (v : α)
    (h : l[i]? = some v) : l.set i v = l := by
  induction l generalizing i with
  | nil => simp at h
  | cons a l ih =>
    cases i with
    | zero =>
      simp only [List.getElem?_cons_zero, Option.some.injEq] at h
      rw [List.set, h]
    | succ i =>
      rw [List.set, ih i (by simpa using h)]

/-- Replacing one entry by a value with the same image leaves the
mapped list unchanged. -/
theorem map_set_of_eq {α β : Type} (g : α → β) (cs : List α) (i : Nat)
    (c' c0 : α) (hg : cs[i]? = some c0) (he : g c' = g c0) :
    (cs.set i c').map g = cs.map g := by
  rw [List.map_set, he]
  apply list_set_self
  rw [List.getElem?_map, hg]
  rfl

/-- The nested zoom only rewrites grandchildren: the widths and
heights of the node's direct children are untouched. -/
theorem maps_anzAux (f : Nat) (n : LayoutNode) (pid zp : Int) :
    (anzAux f n pid zp).children.map LayoutNode.width =
      n.children.map LayoutNode.width ∧
    (anzAux f n pid zp).children.map LayoutNode.height =
      n.children.map LayoutNode.height := by
  cases f with
  | zero => exact ⟨rfl, rfl⟩
  | succ f =>
    rw [anzAux]
    split
    · exact ⟨rfl, rfl⟩
    rename_i i hfind
    split
    · exact ⟨rfl, rfl⟩
    rename_i child hget
    split
    · split
      · exact ⟨rfl, rfl⟩
      rename_i j hj
      have hw1 : (if child.splitType = SplitType.horizontal then
          applyHorizontalZoom child j zp
          else if child.splitType = SplitType.vertical then applyVerticalZoom child j zp
          else child).width = child.width := by
        split
        · exact width_applyHorizontalZoom _ _ _
        split
        · exact width_applyVerticalZoom _ _ _
        · rfl
      have hh1 : (if child.splitType = SplitType.horizontal then
          applyHorizontalZoom child j zp
          else if child.splitType = SplitType.vertical then applyVerticalZoom child j zp
          else child).height = child.height := by
        split
        · exact height_applyHorizontalZoom _ _ _
        split
        · exact height_applyVerticalZoom _ _ _
        · rfl
      constructor
      · simp only [children_setChildren]
        apply map_set_of_eq _ _ _ _ child hget
        rw [width_anzAux, hw1]
      · simp only [children_setChildren]
        apply map_set_of_eq _ _ _ _ child hget
        rw [height_anzAux, hh1]
    · exact ⟨rfl, rfl⟩

/-- C1 (amended): when the root is a split with at least two children,
one of which contains the target pane, the fully transformed tree —
`ApplyZoomToLayout` followed by `applyNestedZoom`, the tree the
program serialises — satisfies size conservation at the root along
the split axis.  The invariant is not guaranteed deeper in the tree,
nor for the decoded input tree (the parser does not validate
sizes). -/
theorem zoom_root_conservation (t : LayoutNode) (pid zp : Int)
    (hfind : (t.children.findIdx? (fun c => containsPane c pid)).isSome)
    (hlen : 2 ≤ t.children.length) :
    (t.splitType = SplitType.horizontal →
      ((applyNestedZoom (ApplyZoomToLayout t pid zp) pid zp).children.map
          LayoutNode.width).sum +
        (((applyNestedZoom (ApplyZoomToLayout t pid zp) pid zp).children.length : Int)
          - 1) =
        (applyNestedZoom (ApplyZoomToLayout t pid zp) pid zp).width) ∧
    (t.splitType = SplitType.vertical →
      ((applyNestedZoom (ApplyZoomToLayout t pid zp) pid zp).children.map
          LayoutNode.height).sum +
        (((applyNestedZoom (ApplyZoomToLayout t pid zp) pid zp).children.length : Int)
          - 1) =
        (applyNestedZoom (ApplyZoomToLayout t pid zp) pid zp).height) := by
  obtain ⟨i, hi⟩ := Option.isSome_iff_exists.mp hfind
  have hilt : i < t.children.length :=
    (List.findIdx?_eq_some_iff_findIdx_eq.mp hi).1
  have hmapw := (maps_anzAux (nodeHeight (ApplyZoomToLayout t pid zp))
    (ApplyZoomToLayout t pid zp) pid zp).1
  have hmaph := (maps_anzAux (nodeHeight (ApplyZoomToLayout t pid zp))
    (ApplyZoomToLayout t pid zp) pid zp).2
  have hlen2 : (anzAux (nodeHeight (ApplyZoomToLayout t pid zp))
      (ApplyZoomToLayout t pid zp) pid zp).children.length =
      (ApplyZoomToLayout t pid zp).children.length := by
    have := congrArg List.length hmapw
    simpa using this
  constructor
  · intro hsplit
    have he : ApplyZoomToLayout t pid zp = applyHorizontalZoom t i zp := by
      unfold ApplyZoomToLayout
      simp only [copyLayoutNode_eq, hi]
      rw [if_pos hsplit]
    rw [applyNestedZoom, hmapw, width_anzAux, hlen2, he]
    exact applyHorizontalZoom_conservation t i zp hlen hilt
  · intro hsplit
    have hnh : ¬ t.splitType = SplitType.horizontal := by
      rw [hsplit]
      intro hc
      exact SplitType.noConfusion hc
    have he : ApplyZoomToLayout t pid zp = applyVerticalZoom t i zp := by
      unfold ApplyZoomToLayout
      simp only [copyLayoutNode_eq, hi]
      rw [if_neg hnh, if_pos hsplit]
    rw [applyNestedZoom, hmaph, height_anzAux, hlen2, he]
    exact applyVerticalZoom_conservation t i zp hlen hilt

/-- C1 counterexample: the parser accepts a layout whose decoded tree
already violates size conservation, and even from a fully conserving
decoded tree the zoom transform leaves a nested opposite-axis split
with a stale sum (width propagated through the vertical split without
resizing the inner horizontal split's children). -/
theorem zoom_conservation_counterexample :
    ParseLayout "aaaa,10x10,0,0{3x10,0,0,1,3x10,4,0,2}".toList = .ok exampleBadSum ∧
    sizeOk exampleBadSum = false ∧
    ParseLayout
      "aaaa,255x61,0,0{84x61,0,0[84x30,0,0{41x30,0,0,1,42x30,42,0,2},84x30,0,31,3],85x61,85,0,4,84x61,171,0,5}".toList =
      .ok exampleNested ∧
    sizeOk exampleNested = true ∧
    sizeOk (applyNestedZoom (ApplyZoomToLayout exampleNested 4 65) 4 65) = false := by
  refine ⟨?_, ?_, ?_, ?_, ?_⟩ <;> decide

/-- Witness for C1 (amended) on the two-pane tree, through the full
composed transform. -/
theorem zoom_root_conservation_witness :
    ((exampleTwoPane.children.findIdx? (fun c => containsPane c 1)).isSome ∧
      2 ≤ exampleTwoPane.children.length ∧
      exampleTwoPane.splitType = SplitType.horizontal) ∧
    ((applyNestedZoom (ApplyZoomToLayout exampleTwoPane 1 65) 1 65).children.map
        LayoutNode.width).sum +
      (((applyNestedZoom (ApplyZoomToLayout exampleTwoPane 1 65) 1 65).children.length :
        Int) - 1) =
      (applyNestedZoom (ApplyZoomToLayout exampleTwoPane 1 65) 1 65).width :=
  ⟨⟨by decide, by decide, by decide⟩,
    (zoom_root_conservation exampleTwoPane 1 65 (by decide) (by decide)).1 (by decide)⟩

/-- C3: decoding the example layout yields a width-split root with
child widths [84, 85, 84]; zooming pane 26 at 65 % gives child 0
width 165 = (255−2)·65/100 + 1 (rounding adjustment), children 1 and
2 get shares of the remaining 89 cells proportional to 85:84, panes
26 and 41 both inherit their column's width 165, and the top-level
widths plus two borders reconstitute 255 exactly. -/
theorem example_zoom_pane26 :
    ParseLayout
      "b2d9,255x61,0,0{84x61,0,0[84x30,0,0,26,84x30,0,31,41],85x61,85,0,36,84x61,171,0,42}".toList =
      .ok exampleTree4 ∧
    exampleTree4.splitType = SplitType.horizontal ∧
    exampleTree4.children.map LayoutNode.width = [84, 85, 84] ∧
    (applyNestedZoom (ApplyZoomToLayout exampleTree4 26 65) 26 65).children.map
      LayoutNode.width = [165, 44, 44] ∧
    (165 : Int) = Int.tdiv ((255 - 2) * 65) 100 + 1 ∧
    (44 : Int) = Int.tdiv (85 * (253 - 164)) 169 ∧
    (44 : Int) = Int.tdiv (84 * (253 - 164)) 169 ∧
    ((applyNestedZoom (ApplyZoomToLayout exampleTree4 26 65) 26 65).children.headD
        (.mk 0 0 0 0 0 .none [])).children.map LayoutNode.width = [165, 165] ∧
    ((applyNestedZoom (ApplyZoomToLayout exampleTree4 26 65) 26 65).children.headD
        (.mk 0 0 0 0 0 .none [])).width = 165 ∧
    (165 : Int) + 44 + 44 + 2 = 255 := by
  refine ⟨?_, ?_, ?_, ?_, ?_, ?_, ?_, ?_, ?_, ?_⟩ <;> decide

theorem ediv_add_ediv_le (x y c : Int) (hc : 0 < c) : x / c + y / c ≤ (x + y) / c := by
  rw [Int.le_ediv_iff_mul_le hc, add_mul]
  have h1 : x / c * c ≤ x := Int.ediv_mul_le x (by omega)
  have h2 : y / c * c ≤ y := Int.ediv_mul_le y (by omega)
  omega

theorem mul_ediv_ge (x c : Int) (hc : 0 < c) : x - (c - 1) ≤ c * (x / c) := by
  have h1 := Int.ediv_add_emod x c
  have h2 := Int.emod_lt_of_pos x hc
  omega

theorem sum_div_le (l : List Int) (rem o : Int) (ho : 0 < o) :
    (l.map (fun w => (w * rem) / o)).sum ≤ (l.sum * rem) / o := by
  induction l with
  | nil => simp
  | cons w ws ih =>
    rw [List.map_cons, List.sum_cons, List.sum_cons, add_mul]
    calc (w * rem) / o + (ws.map (fun w => (w * rem) / o)).sum
        ≤ (w * rem) / o + (ws.sum * rem) / o := by omega
      _ ≤ (w * rem + ws.sum * rem) / o := ediv_add_ediv_le _ _ _ ho

theorem sum_div_lower (l : List Int) (rem o : Int) (ho : 0 < o) :
    l.sum * rem - l.length * (o - 1) ≤ o * (l.map (fun w => (w * rem) / o)).sum := by
  induction l with
  | nil => simp
  | cons w ws ih =>
    rw [List.map_cons, List.sum_cons, List.sum_cons, List.length_cons, mul_add]
    have h1 := mul_ediv_ge (w * rem) o ho
    push_cast
    nlinarith [ih, h1]

theorem sum_map_const_int (l : List Int) (c : Int) :
    (l.map (fun _v => c)).sum = l.length * c := by
  induction l
  case nil => simp
  case cons w ws ih =>
    rw [List.map_cons, List.sum_cons, List.length_cons, ih]
    push_cast
    ring

theorem sum_nonneg_int {l : List Int} (h : ∀ v ∈ l, 0 ≤ v) : 0 ≤ l.sum := by
  induction l with
  | nil => simp
  | cons w ws ih =>
    rw [List.sum_cons]
    have hw := h w (List.mem_cons_self w ws)
    have hws := ih (fun x hx => h x (List.mem_cons_of_mem w hx))
    omega

theorem mem_le_sum_of_nonneg {l : List Int} (h : ∀ v ∈ l, 0 ≤ v) :
    ∀ v ∈ l, v ≤ l.sum := by
  induction l with
  | nil => intro v hv; simp at hv
  | cons w ws ih =>
    intro v hv
    have hws : 0 ≤ ws.sum := sum_nonneg_int (fun x hx => h x (List.mem_cons_of_mem w hx))
    have hw : 0 ≤ w := h w (List.mem_cons_self w ws)
    rcases List.mem_cons.mp hv with rfl | hv'
    · rw [List.sum_cons]; omega
    · have hle := ih (fun x hx => h x (List.mem_cons_of_mem w hx)) v hv'
      rw [List.sum_cons]; omega

theorem distributeAux_gt (a : Nat) (T r o fb : Int) :
    ∀ (ws : List Int) (i : Nat), a < i →
      distributeAux a T r o fb i ws =
        ws.map (fun w => if o > 0 then Int.tdiv (w * r) o else Int.tdiv r fb) := by
  intro ws
  induction ws with
  | nil => intro i h; rfl
  | cons w rest ih =>
    intro i h
    rw [distributeAux, List.map_cons, if_neg (by omega), ih (i + 1) (by omega)]

theorem distributeAux_split (T r o fb : Int) (pre : List Int) (wa : Int) (post : List Int) :
    ∀ i : Nat,
      distributeAux (i + pre.length) T r o fb i (pre ++ wa :: post) =
        pre.map (fun w => if o > 0 then Int.tdiv (w * r) o else Int.tdiv r fb) ++
          T :: post.map (fun w => if o > 0 then Int.tdiv (w * r) o else Int.tdiv r fb) := by
  induction pre with
  | nil =>
    intro i
    rw [List.nil_append, List.map_nil, List.nil_append, List.length_nil, Nat.add_zero,
      distributeAux, if_pos rfl, distributeAux_gt _ _ _ _ _ _ (i + 1) (by omega)]
  | cons w pre ih =>
    intro i
    rw [List.cons_append, distributeAux, List.map_cons, List.cons_append,
      if_neg (by simp)]
    have := ih (i + 1)
    rw [List.length_cons]
    have harith : i + (pre.length + 1) = (i + 1) + pre.length := by omega
    rw [harith, this]

theorem sumExceptAux_gt (a : Nat) :
    ∀ (ws : List Int) (i : Nat), a < i → sumExceptAux i a ws = ws.sum := by
  intro ws
  induction ws with
  | nil => intro i h; rfl
  | cons w rest ih =>
    intro i h
    rw [sumExceptAux, List.sum_cons, if_neg (by omega), ih (i + 1) (by omega)]

theorem sumExceptAux_split (pre : List Int) (wa : Int) (post : List Int) :
    ∀ i : Nat, sumExceptAux i (i + pre.length) (pre ++ wa :: post) = pre.sum + post.sum := by
  induction pre with
  | nil =>
    intro i
    rw [List.nil_append, List.length_nil, Nat.add_zero, sumExceptAux, if_pos rfl,
      sumExceptAux_gt _ _ (i + 1) (by omega), List.sum_nil]
  | cons w pre ih =>
    intro i
    rw [List.cons_append, sumExceptAux, List.sum_cons, List.length_cons,
      if_neg (by omega)]
    have harith : i + (pre.length + 1) = (i + 1) + pre.length := by omega
    rw [harith, ih (i + 1)]
    ring

theorem getD_append_len (l1 : List Int) (v : Int) (l2 : List Int) :
    (l1 ++ v :: l2).getD l1.length 0 = v := by
  induction l1 with
  | nil => rfl
  | cons w ws ih => rw [List.cons_append, List.length_cons, List.getD_cons_succ, ih]

theorem set_append_len (l1 : List Int) (v u : Int) (l2 : List Int) :
    (l1 ++ v :: l2).set l1.length u = l1 ++ u :: l2 := by
  induction l1 with
  | nil => rfl
  | cons w ws ih => rw [List.cons_append, List.length_cons, List.set_cons_succ, ih]; rfl

theorem adjustSizes_split (l1 : List Int) (v : Int) (l2 : List Int) (av : Int) :
    adjustSizes (l1 ++ v :: l2) l1.length av =
      l1 ++ (v + (av - (l1 ++ v :: l2).sum)) :: l2 := by
  unfold adjustSizes
  by_cases h : (l1 ++ v :: l2).sum ≠ av
  · rw [if_pos h, getD_append_len, set_append_len]
  · push_neg at h
    rw [if_neg (by omega), h, sub_self, add_zero]

theorem getD_lt_int {l : List Int} {j : Nat} (h : j < l.length) : l.getD j 0 = l[j] := by
  rw [List.getD_eq_getElem?_getD, List.getElem?_eq_getElem h, Option.getD_some]

theorem getD_ge_int {l : List Int} {j : Nat} (h : l.length ≤ j) : l.getD j 0 = 0 := by
  rw [List.getD_eq_getElem?_getD, List.getElem?_eq_none h, Option.getD_none]

theorem zoomSizes_split_form (pre post : List Int) (wa av zp : Int) :
    zoomSizes (pre ++ wa :: post) pre.length av zp =
      pre.map (fun w =>
          if (pre.sum + post.sum) > 0 then
            Int.tdiv (w * (av - Int.tdiv (av * zp) 100)) (pre.sum + post.sum)
          else Int.tdiv (av - Int.tdiv (av * zp) 100) (((pre ++ wa :: post).length : Int) - 1)) ++
        (Int.tdiv (av * zp) 100 +
          (av - (pre.map (fun w =>
            if (pre.sum + post.sum) > 0 then
              Int.tdiv (w * (av - Int.tdiv (av * zp) 100)) (pre.sum + post.sum)
            else Int.tdiv (av - Int.tdiv (av * zp) 100) (((pre ++ wa :: post).length : Int) - 1)) ++
            Int.tdiv (av * zp) 100 :: post.map (fun w =>
              if (pre.sum + post.sum) > 0 then
                Int.tdiv (w * (av - Int.tdiv (av * zp) 100)) (pre.sum + post.sum)
              else Int.tdiv (av - Int.tdiv (av * zp) 100) (((pre ++ wa :: post).length : Int) - 1))).sum)) ::
        post.map (fun w =>
          if (pre.sum + post.sum) > 0 then
            Int.tdiv (w * (av - Int.tdiv (av * zp) 100)) (pre.sum + post.sum)
          else Int.tdiv (av - Int.tdiv (av * zp) 100) (((pre ++ wa :: post).length : Int) - 1)) := by
  unfold zoomSizes
  have hsum := sumExceptAux_split pre wa post 0
  rw [Nat.zero_add] at hsum
  have hdist := distributeAux_split (Int.tdiv (av * zp) 100)
    (av - Int.tdiv (av * zp) 100) (pre.sum + post.sum)
    (((pre ++ wa :: post).length : Int) - 1) pre wa post 0
  rw [Nat.zero_add] at hdist
  rw [hsum, hdist]
  have hlen : pre.length = (pre.map (fun w =>
      if (pre.sum + post.sum) > 0 then
        Int.tdiv (w * (av - Int.tdiv (av * zp) 100)) (pre.sum + post.sum)
      else Int.tdiv (av - Int.tdiv (av * zp) 100)
        (((pre ++ wa :: post).length : Int) - 1))).length := by
    rw [List.length_map]
  rw [hlen, adjustSizes_split]

theorem dist_list_bounds (l : List Int) (r o fb : Int)
    (hl : ∀ w ∈ l, 0 ≤ w) (hr : 0 ≤ r) (hsum : l.sum = o) (hfb : fb = (l.length : Int))
    (hk : 1 ≤ l.length) :
    (∀ e ∈ l.map (fun w => if o > 0 then Int.tdiv (w * r) o else Int.tdiv r fb), 0 ≤ e) ∧
    (l.map (fun w => if o > 0 then Int.tdiv (w * r) o else Int.tdiv r fb)).sum ≤ r ∧
    r - (l.length : Int) <
      (l.map (fun w => if o > 0 then Int.tdiv (w * r) o else Int.tdiv r fb)).sum := by
  have hlen1 : (1 : Int) ≤ (l.length : Int) := by exact_mod_cast hk
  by_cases hop : o > 0
  · have hmap : l.map (fun w => if o > 0 then Int.tdiv (w * r) o else Int.tdiv r fb)
        = l.map (fun w => (w * r) / o) := by
      apply List.map_congr_left
      intro w hw
      rw [if_pos hop, Int.tdiv_eq_ediv (mul_nonneg (hl w hw) hr) (by omega)]
    rw [hmap]
    refine ⟨?_, ?_, ?_⟩
    · intro e he
      obtain ⟨w, hw, rfl⟩ := List.mem_map.mp he
      exact Int.ediv_nonneg (mul_nonneg (hl w hw) hr) (by omega)
    · have h1 := sum_div_le l r o hop
      rw [hsum] at h1
      calc (l.map (fun w => (w * r) / o)).sum ≤ (o * r) / o := h1
        _ = r := Int.mul_ediv_cancel_left r (by omega)
    · have h2 := sum_div_lower l r o hop
      rw [hsum] at h2
      have hmul : o * (r - (l.length : Int)) < o * (l.map (fun w => (w * r) / o)).sum := by
        nlinarith [h2, hlen1]
      exact lt_of_mul_lt_mul_left hmul (by omega)
  · have hmap : l.map (fun w => if o > 0 then Int.tdiv (w * r) o else Int.tdiv r fb)
        = l.map (fun _ => r / (l.length : Int)) := by
      apply List.map_congr_left
      intro w hw
      rw [if_neg hop, hfb, Int.tdiv_eq_ediv hr (by omega)]
    rw [hmap, sum_map_const_int]
    refine ⟨?_, ?_, ?_⟩
    · intro e he
      obtain ⟨w, hw, rfl⟩ := List.mem_map.mp he
      exact Int.ediv_nonneg hr (by omega)
    · rw [mul_comm]
      exact Int.ediv_mul_le r (by omega)
    · have := mul_ediv_ge r (l.length : Int) (by omega)
      omega

theorem zoomSizes_bounds (pre post : List Int) (wa av zp : Int)
    (hav : 0 ≤ av) (hzp0 : 0 ≤ zp) (hzp1 : zp ≤ 100)
    (hpre : ∀ w ∈ pre, 0 ≤ w) (hpost : ∀ w ∈ post, 0 ≤ w)
    (hn : 1 ≤ pre.length + post.length) :
    Int.tdiv (av * zp) 100 ≤
      (zoomSizes (pre ++ wa :: post) pre.length av zp).getD pre.length 0 ∧
    (zoomSizes (pre ++ wa :: post) pre.length av zp).getD pre.length 0 ≤
      Int.tdiv (av * zp) 100 + ((pre.length : Int) + (post.length : Int) - 1) ∧
    (av ≤ 2 * Int.tdiv (av * zp) 100 →
      ∀ j, (zoomSizes (pre ++ wa :: post) pre.length av zp).getD j 0 ≤
        (zoomSizes (pre ++ wa :: post) pre.length av zp).getD pre.length 0) := by
  have hform := zoomSizes_split_form pre post wa av zp
  set g : Int → Int := fun w =>
    if (pre.sum + post.sum) > 0 then
      Int.tdiv (w * (av - Int.tdiv (av * zp) 100)) (pre.sum + post.sum)
    else Int.tdiv (av - Int.tdiv (av * zp) 100)
      (((pre ++ wa :: post).length : Int) - 1) with hgdef
  have hT0 : 0 ≤ Int.tdiv (av * zp) 100 :=
    Int.tdiv_nonneg (mul_nonneg hav hzp0) (by norm_num)
  have hTle : Int.tdiv (av * zp) 100 ≤ av := by
    rw [Int.tdiv_eq_ediv (mul_nonneg hav hzp0) (by norm_num)]
    calc (av * zp) / 100 ≤ (av * 100) / 100 :=
        Int.ediv_le_ediv (by norm_num) (mul_le_mul_of_nonneg_left hzp1 hav)
      _ = av := Int.mul_ediv_cancel av (by norm_num)
  have hfb : (((pre ++ wa :: post).length : Int) - 1) = ((pre ++ post).length : Int) := by
    rw [List.length_append, List.length_cons, List.length_append]
    push_cast
    ring
  have hsum_app : (pre ++ post).sum = pre.sum + post.sum := List.sum_append
  have hlen_app : 1 ≤ (pre ++ post).length := by rw [List.length_append]; omega
  have hmem : ∀ w ∈ pre ++ post, 0 ≤ w := by
    intro w hw
    rcases List.mem_append.mp hw with h | h
    · exact hpre w h
    · exact hpost w h
  have hr0 : 0 ≤ av - Int.tdiv (av * zp) 100 := by omega
  have hbounds := dist_list_bounds (pre ++ post) (av - Int.tdiv (av * zp) 100)
    (pre.sum + post.sum) (((pre ++ wa :: post).length : Int) - 1)
    hmem hr0 hsum_app hfb hlen_app
  rw [← hgdef] at hbounds
  rw [List.map_append] at hbounds
  obtain ⟨hnn, hSle, hSgt⟩ := hbounds
  rw [List.sum_append] at hSle hSgt
  rw [List.sum_append, List.sum_cons] at hform
  have hval : (zoomSizes (pre ++ wa :: post) pre.length av zp).getD pre.length 0 =
      Int.tdiv (av * zp) 100 +
        (av - ((pre.map g).sum + (Int.tdiv (av * zp) 100 + (post.map g).sum))) := by
    rw [hform]
    have h := getD_append_len (pre.map g)
      (Int.tdiv (av * zp) 100 +
        (av - ((pre.map g).sum + (Int.tdiv (av * zp) 100 + (post.map g).sum))))
      (post.map g)
    rwa [List.length_map] at h
  have hklen : ((pre ++ post).length : Int) = (pre.length : Int) + (post.length : Int) := by
    rw [List.length_append]
    push_cast
    ring
  rw [hklen] at hSgt
  refine ⟨?_, ?_, ?_⟩
  · rw [hval]; omega
  · rw [hval]; omega
  · intro hdom j
    rw [hval]
    by_cases hj : j < (zoomSizes (pre ++ wa :: post) pre.length av zp).length
    · have hjmem : (zoomSizes (pre ++ wa :: post) pre.length av zp).getD j 0 ∈
          zoomSizes (pre ++ wa :: post) pre.length av zp := by
        rw [getD_lt_int hj]
        exact List.getElem_mem hj
      nth_rewrite 1 [hform] at hjmem
      rcases List.mem_append.mp hjmem with hmem1 | hmem2
      · have hle := mem_le_sum_of_nonneg hnn _ (List.mem_append_left (post.map g) hmem1)
        rw [List.sum_append] at hle
        omega
      · rcases List.mem_cons.mp hmem2 with heq | hmem3
        · omega
        · have hle := mem_le_sum_of_nonneg hnn _ (List.mem_append_right (pre.map g) hmem3)
          rw [List.sum_append] at hle
          omega
    · rw [getD_ge_int (by omega)]
      omega

theorem applyHorizontalZoom_share (n : LayoutNode) (i : Nat) (zp : Int)
    (hlen : 2 ≤ n.children.length) (hi : i < n.children.length)
    (hw : ∀ c ∈ n.children, 0 ≤ c.width)
    (hav : (n.children.length : Int) - 1 ≤ n.width) (hzp0 : 0 ≤ zp) (hzp1 : zp ≤ 100) :
    Int.tdiv ((n.width - ((n.children.length : Int) - 1)) * zp) 100 ≤
      ((applyHorizontalZoom n i zp).children.map LayoutNode.width).getD i 0 ∧
    ((applyHorizontalZoom n i zp).children.map LayoutNode.width).getD i 0 ≤
      Int.tdiv ((n.width - ((n.children.length : Int) - 1)) * zp) 100 +
        ((n.children.length : Int) - 2) ∧
    (n.width - ((n.children.length : Int) - 1) ≤
        2 * Int.tdiv ((n.width - ((n.children.length : Int) - 1)) * zp) 100 →
      ∀ j, ((applyHorizontalZoom n i zp).children.map LayoutNode.width).getD j 0 ≤
        ((applyHorizontalZoom n i zp).children.map LayoutNode.width).getD i 0) := by
  have hnot : ¬ n.children.length ≤ 1 := by omega
  have hmapw : (applyHorizontalZoom n i zp).children.map LayoutNode.width =
      zoomSizes (n.children.map LayoutNode.width) i
        (n.width - ((n.children.length : Int) - 1)) zp := by
    rw [applyHorizontalZoom_eq n i zp hnot, children_setChildren]
    exact applySizesH_map_width _ _ _ (by rw [zoomSizes_length, List.length_map])
  rw [hmapw]
  set ws := n.children.map LayoutNode.width with hwsdef
  have hwslen : ws.length = n.children.length := by rw [hwsdef, List.length_map]
  have hiws : i < ws.length := by omega
  have hwsnn : ∀ w ∈ ws, 0 ≤ w := by
    intro w hwmem
    rw [hwsdef] at hwmem
    obtain ⟨c, hc, rfl⟩ := List.mem_map.mp hwmem
    exact hw c hc
  have hdecomp : ws = ws.take i ++ ws[i] :: ws.drop (i + 1) := by
    rw [← List.drop_eq_getElem_cons hiws, List.take_append_drop]
  have htklen : (ws.take i).length = i := by rw [List.length_take]; omega
  have hdplen : (ws.drop (i + 1)).length = ws.length - (i + 1) := by rw [List.length_drop]
  have hb := zoomSizes_bounds (ws.take i) (ws.drop (i + 1)) ws[i]
      (n.width - ((n.children.length : Int) - 1)) zp (by omega) hzp0 hzp1
      (fun w hwmem => hwsnn w (List.take_subset i ws hwmem))
      (fun w hwmem => hwsnn w (List.drop_subset (i + 1) ws hwmem))
      (by omega)
  rw [htklen, ← hdecomp] at hb
  obtain ⟨h1, h2, h3⟩ := hb
  have hcast : ((ws.drop (i + 1)).length : Int) = (n.children.length : Int) - (i + 1) := by
    rw [hdplen]
    omega
  refine ⟨h1, by omega, h3⟩

theorem applyVerticalZoom_share (n : LayoutNode) (i : Nat) (zp : Int)
    (hlen : 2 ≤ n.children.length) (hi : i < n.children.length)
    (hh : ∀ c ∈ n.children, 0 ≤ c.height)
    (hav : (n.children.length : Int) - 1 ≤ n.height) (hzp0 : 0 ≤ zp) (hzp1 : zp ≤ 100) :
    Int.tdiv ((n.height - ((n.children.length : Int) - 1)) * zp) 100 ≤
      ((applyVerticalZoom n i zp).children.map LayoutNode.height).getD i 0 ∧
    ((applyVerticalZoom n i zp).children.map LayoutNode.height).getD i 0 ≤
      Int.tdiv ((n.height - ((n.children.length : Int) - 1)) * zp) 100 +
        ((n.children.length : Int) - 2) ∧
    (n.height - ((n.children.length : Int) - 1) ≤
        2 * Int.tdiv ((n.height - ((n.children.length : Int) - 1)) * zp) 100 →
      ∀ j, ((applyVerticalZoom n i zp).children.map LayoutNode.height).getD j 0 ≤
        ((applyVerticalZoom n i zp).children.map LayoutNode.height).getD i 0) := by
  have hnot : ¬ n.children.length ≤ 1 := by omega
  have hmaph : (applyVerticalZoom n i zp).children.map LayoutNode.height =
      zoomSizes (n.children.map LayoutNode.height) i
        (n.height - ((n.children.length : Int) - 1)) zp := by
    rw [applyVerticalZoom_eq n i zp hnot, children_setChildren]
    exact applySizesV_map_height _ _ _ (by rw [zoomSizes_length, List.length_map])
  rw [hmaph]
  set hs := n.children.map LayoutNode.height with hhsdef
  have hhslen : hs.length = n.children.length := by rw [hhsdef, List.length_map]
  have hihs : i < hs.length := by omega
  have hhsnn : ∀ w ∈ hs, 0 ≤ w := by
    intro w hwmem
    rw [hhsdef] at hwmem
    obtain ⟨c, hc, rfl⟩ := List.mem_map.mp hwmem
    exact hh c hc
  have hdecomp : hs = hs.take i ++ hs[i] :: hs.drop (i + 1) := by
    rw [← List.drop_eq_getElem_cons hihs, List.take_append_drop]
  have htklen : (hs.take i).length = i := by rw [List.length_take]; omega
  have hdplen : (hs.drop (i + 1)).length = hs.length - (i + 1) := by rw [List.length_drop]
  have hb := zoomSizes_bounds (hs.take i) (hs.drop (i + 1)) hs[i]
      (n.height - ((n.children.length : Int) - 1)) zp (by omega) hzp0 hzp1
      (fun w hwmem => hhsnn w (List.take_subset i hs hwmem))
      (fun w hwmem => hhsnn w (List.drop_subset (i + 1) hs hwmem))
      (by omega)
  rw [htklen, ← hdecomp] at hb
  obtain ⟨h1, h2, h3⟩ := hb
  have hcast : ((hs.drop (i + 1)).length : Int) = (n.children.length : Int) - (i + 1) := by
    rw [hdplen]
    omega
  refine ⟨h1, by omega, h3⟩

/-- C7 (amended): after the zoom, the target child's size at the first
split level on the root's axis is `(available*percent)/100` plus a
rounding adjustment in `[0, numChildren−2]` (for non-negative child
sizes, percent in [0,100] and `available ≥ 0`); the target is at
least every sibling whenever `available ≤ 2·⌊available·percent/100⌋`
(e.g. percent ≥ 50 with even `available`) — but `percent ≥
100/numChildren` alone does not suffice (see the counterexample). -/
theorem zoom_target_share (t : LayoutNode) (pid zp : Int) (i : Nat)
    (hfind : t.children.findIdx? (fun c => containsPane c pid) = some i)
    (hlen : 2 ≤ t.children.length) (hzp0 : 0 ≤ zp) (hzp1 : zp ≤ 100) :
    (t.splitType = SplitType.horizontal → (∀ c ∈ t.children, 0 ≤ c.width) →
      (t.children.length : Int) - 1 ≤ t.width →
      (Int.tdiv ((t.width - ((t.children.length : Int) - 1)) * zp) 100 ≤
        ((ApplyZoomToLayout t pid zp).children.map LayoutNode.width).getD i 0 ∧
      ((ApplyZoomToLayout t pid zp).children.map LayoutNode.width).getD i 0 ≤
        Int.tdiv ((t.width - ((t.children.length : Int) - 1)) * zp) 100 +
          ((t.children.length : Int) - 2) ∧
      (t.width - ((t.children.length : Int) - 1) ≤
          2 * Int.tdiv ((t.width - ((t.children.length : Int) - 1)) * zp) 100 →
        ∀ j, ((ApplyZoomToLayout t pid zp).children.map LayoutNode.width).getD j 0 ≤
          ((ApplyZoomToLayout t pid zp).children.map LayoutNode.width).getD i 0))) ∧
    (t.splitType = SplitType.vertical → (∀ c ∈ t.children, 0 ≤ c.height) →
      (t.children.length : Int) - 1 ≤ t.height →
      (Int.tdiv ((t.height - ((t.children.length : Int) - 1)) * zp) 100 ≤
        ((ApplyZoomToLayout t pid zp).children.map LayoutNode.height).getD i 0 ∧
      ((ApplyZoomToLayout t pid zp).children.map LayoutNode.height).getD i 0 ≤
        Int.tdiv ((t.height - ((t.children.length : Int) - 1)) * zp) 100 +
          ((t.children.length : Int) - 2) ∧
      (t.height - ((t.children.length : Int) - 1) ≤
          2 * Int.tdiv ((t.height - ((t.children.length : Int) - 1)) * zp) 100 →
        ∀ j, ((ApplyZoomToLayout t pid zp).children.map LayoutNode.height).getD j 0 ≤
          ((ApplyZoomToLayout t pid zp).children.map LayoutNode.height).getD i 0))) := by
  have hi : i < t.children.length := (List.findIdx?_eq_some_iff_findIdx_eq.mp hfind).1
  constructor
  · intro hsplit hw hav
    have he : ApplyZoomToLayout t pid zp = applyHorizontalZoom t i zp := by
      unfold ApplyZoomToLayout
      simp only [copyLayoutNode_eq, hfind]
      rw [if_pos hsplit]
    rw [he]
    exact applyHorizontalZoom_share t i zp hlen hi hw hav hzp0 hzp1
  · intro hsplit hh hav
    have hnh : ¬ t.splitType = SplitType.horizontal := by
      rw [hsplit]
      intro hc
      exact SplitType.noConfusion hc
    have he : ApplyZoomToLayout t pid zp = applyVerticalZoom t i zp := by
      unfold ApplyZoomToLayout
      simp only [copyLayoutNode_eq, hfind]
      rw [if_neg hnh, if_pos hsplit]
    rw [he]
    exact applyVerticalZoom_share t i zp hlen hi hh hav hzp0 hzp1

/-- C7 counterexample: a conserving two-pane layout of width 6
(available 5) zoomed at percent 50 — which satisfies
`percent·numChildren ≥ 100` — leaves the target (pane 1, original
width 2) at width 2 while the sibling gets width 3, so the target is
not at least every sibling's size. -/
theorem zoom_dominance_counterexample :
    sizeOk exampleUneven = true ∧
    exampleUneven.children.findIdx? (fun c => containsPane c 1) = some 0 ∧
    (50 : Int) * exampleUneven.children.length ≥ 100 ∧
    ((ApplyZoomToLayout exampleUneven 1 50).children.map LayoutNode.width).getD 0 0 <
      ((ApplyZoomToLayout exampleUneven 1 50).children.map LayoutNode.width).getD 1 0 := by
  refine ⟨by decide, by decide, by decide, by decide⟩

/-- Witness for C7 (amended) on the two-pane tree at percent 65. -/
theorem zoom_target_share_witness :
    ((ApplyZoomToLayout exampleTwoPane 1 65).children.map LayoutNode.width).getD 1 0 ≤
      ((ApplyZoomToLayout exampleTwoPane 1 65).children.map LayoutNode.width).getD 0 0 :=
  ((zoom_target_share exampleTwoPane 1 65 0 (by decide) (by decide) (by decide)
    (by decide)).1 (by decide) (by decide) (by decide)).2.2 (by decide) 1


theorem length_dropWhile_le' {α : Type} (p : α → Bool) (s : List α) :
    (s.dropWhile p).length ≤ s.length := by
  induction s with
  | nil => simp
  | cons c cs ih =>
    rw [List.dropWhile_cons]
    by_cases h : p c
    · rw [if_pos h]
      simp only [List.length_cons]
      omega
    · rw [if_neg h]

theorem length_dropTail_lt {c : Char} {s : List Char} (h : c ∈ s) :
    ((s.dropWhile (· != c)).tail).length < s.length := by
  have hne : s.dropWhile (· != c) ≠ [] := by
    intro hnil
    rw [List.dropWhile_eq_nil_iff] at hnil
    have := hnil c h
    simp at this
  have hle := length_dropWhile_le' (· != c) s
  have hpos : 0 < (s.dropWhile (· != c)).length := List.length_pos.mpr hne
  rw [List.length_tail]
  omega

theorem parse_shrink : ∀ (fuel : Nat),
    (∀ s t r, parseNode s fuel = some (.ok (t, r)) → r.length < s.length) ∧
    (∀ w s t r, parseAfterWidth w s fuel = some (.ok (t, r)) → r.length ≤ s.length) ∧
    (∀ w h s t r, parseAfterHeight w h s fuel = some (.ok (t, r)) → r.length ≤ s.length) ∧
    (∀ w h x s t r, parseAfterX w h x s fuel = some (.ok (t, r)) → r.length ≤ s.length) ∧
    (∀ w h x y s t r, parseTail w h x y s fuel = some (.ok (t, r)) → r.length ≤ s.length) ∧
    (∀ s e cs r, parseChildren s e fuel = some (.ok (cs, r)) → r.length ≤ s.length) := by
  intro fuel
  induction fuel with
  | zero =>
    refine ⟨?_, ?_, ?_, ?_, ?_, ?_⟩
    · intro s t r h
      rw [parseNode] at h
      exact absurd h (by simp)
    · intro w s t r h
      rw [parseAfterWidth] at h
      exact absurd h (by simp)
    · intro w hh s t r h
      rw [parseAfterHeight] at h
      exact absurd h (by simp)
    · intro w hh xx s t r h
      rw [parseAfterX] at h
      exact absurd h (by simp)
    · intro w hh xx yy s t r h
      rw [parseTail] at h
      exact absurd h (by simp)
    · intro s e cs r h
      rw [parseChildren] at h
      exact absurd h (by simp)
  | succ f ih =>
    obtain ⟨ihN, ihW, ihH, ihX, ihT, ihC⟩ := ih
    refine ⟨?_, ?_, ?_, ?_, ?_, ?_⟩
    · -- parseNode
      intro s t r h
      rw [parseNode] at h
      split at h
      case isFalse => exact absurd h (by simp)
      rename_i hx
      split at h
      case h_1 => exact absurd h (by simp)
      have hrec := ihW _ _ _ _ h
      have := length_dropTail_lt hx
      omega
    · -- parseAfterWidth
      intro w s t r h
      rw [parseAfterWidth] at h
      split at h
      case isFalse => exact absurd h (by simp)
      rename_i hc
      split at h
      case h_1 => exact absurd h (by simp)
      have hrec := ihH w _ _ _ _ h
      have := length_dropTail_lt hc
      omega
    · -- parseAfterHeight
      intro w hh s t r h
      rw [parseAfterHeight] at h
      split at h
      case isFalse => exact absurd h (by simp)
      rename_i hc
      split at h
      case h_1 => exact absurd h (by simp)
      have hrec := ihX w hh _ _ _ _ h
      have := length_dropTail_lt hc
      omega
    · -- parseAfterX
      intro w hh xx s t r h
      rw [parseAfterX] at h
      split at h
      case h_1 => exact absurd h (by simp)
      have hrec := ihT w hh xx _ _ _ _ h
      have := length_dropWhile_le' (fun c => !isNodeEnd c) s
      omega
    · -- parseTail
      intro w hh xx yy s t r h
      cases s with
      | nil =>
        rw [parseTail] at h
        simp only [Option.some.injEq, Except.ok.injEq, Prod.mk.injEq] at h
        obtain ⟨-, hr⟩ := h
        rw [← hr]
      | cons c s5 =>
        rw [parseTail] at h
        split at h
        · -- '{'
          split at h
          case h_1 => exact absurd h (by simp)
          case h_2 => exact absurd h (by simp)
          rename_i cs0 rest0 hrec
          simp only [Option.some.injEq, Except.ok.injEq, Prod.mk.injEq] at h
          obtain ⟨-, hr⟩ := h
          rw [← hr]
          have := ihC _ _ _ _ hrec
          simp only [List.length_cons]
          omega
        split at h
        · -- '['
          split at h
          case h_1 => exact absurd h (by simp)
          case h_2 => exact absurd h (by simp)
          rename_i cs0 rest0 hrec
          simp only [Option.some.injEq, Except.ok.injEq, Prod.mk.injEq] at h
          obtain ⟨-, hr⟩ := h
          rw [← hr]
          have := ihC _ _ _ _ hrec
          simp only [List.length_cons]
          omega
        split at h
        · -- ','
          split at h
          case h_1 => exact absurd h (by simp)
          simp only [Option.some.injEq, Except.ok.injEq, Prod.mk.injEq] at h
          obtain ⟨-, hr⟩ := h
          rw [← hr]
          have := length_dropWhile_le' (fun c => !isPaneEnd c) s5
          simp only [List.length_cons]
          omega
        split at h
        · -- '}' or ']'
          simp only [Option.some.injEq, Except.ok.injEq, Prod.mk.injEq] at h
          obtain ⟨-, hr⟩ := h
          rw [← hr]
        · exact absurd h (by simp)
    · -- parseChildren
      intro s e cs r h
      cases s with
      | nil =>
        rw [parseChildren] at h
        simp only [Option.some.injEq, Except.ok.injEq, Prod.mk.injEq] at h
        obtain ⟨-, hr⟩ := h
        rw [← hr]
      | cons c s1 =>
        rw [parseChildren] at h
        split at h
        · simp only [Option.some.injEq, Except.ok.injEq, Prod.mk.injEq] at h
          obtain ⟨-, hr⟩ := h
          rw [← hr]
          simp
        · split at h
          case h_1 => exact absurd h (by simp)
          case h_2 => exact absurd h (by simp)
          rename_i child rest hnode
          split at h
          case h_1 => exact absurd h (by simp)
          case h_2 => exact absurd h (by simp)
          rename_i cs2 rest2 hrec
          simp only [Option.some.injEq, Except.ok.injEq, Prod.mk.injEq] at h
          obtain ⟨-, hr⟩ := h
          rw [← hr]
          have hn := ihN _ _ _ hnode
          have hc := ihC _ _ _ _ hrec
          have hr1 : (if rest.head? = some ',' then rest.tail else rest).length ≤
              rest.length := by
            split
            · rw [List.length_tail]; omega
            · omega
          rw [List.length_cons] at hn
          rw [List.length_cons]
          omega

theorem parse_total : ∀ (fuel : Nat),
    (∀ s, 6 * s.length + 5 ≤ fuel → (parseNode s fuel).isSome) ∧
    (∀ w s, 6 * s.length + 4 ≤ fuel → (parseAfterWidth w s fuel).isSome) ∧
    (∀ w h s, 6 * s.length + 3 ≤ fuel → (parseAfterHeight w h s fuel).isSome) ∧
    (∀ w h x s, 6 * s.length + 2 ≤ fuel → (parseAfterX w h x s fuel).isSome) ∧
    (∀ w h x y s, 6 * s.length + 1 ≤ fuel → (parseTail w h x y s fuel).isSome) ∧
    (∀ s e, 6 * s.length + 6 ≤ fuel → (parseChildren s e fuel).isSome) := by
  intro fuel
  induction fuel with
  | zero =>
    refine ⟨?_, ?_, ?_, ?_, ?_, ?_⟩
    · intro s hc; omega
    · intro w s hc; omega
    · intro w h s hc; omega
    · intro w h x s hc; omega
    · intro w h x y s hc; omega
    · intro s e hc; omega
  | succ f ih =>
    obtain ⟨ihN, ihW, ihH, ihX, ihT, ihC⟩ := ih
    refine ⟨?_, ?_, ?_, ?_, ?_, ?_⟩
    · intro s hc
      rw [parseNode]
      by_cases hx : 'x' ∈ s
      · rw [if_pos hx]
        cases hg : goAtoi (s.takeWhile (· != 'x')) with
        | none => simp
        | some w =>
          have hlt := length_dropTail_lt hx
          exact ihW w _ (by omega)
      · rw [if_neg hx]
        simp
    · intro w s hc
      rw [parseAfterWidth]
      by_cases hx : ',' ∈ s
      · rw [if_pos hx]
        cases hg : goAtoi (s.takeWhile (· != ',')) with
        | none => simp
        | some h =>
          have hlt := length_dropTail_lt hx
          exact ihH w h _ (by omega)
      · rw [if_neg hx]
        simp
    · intro w h s hc
      rw [parseAfterHeight]
      by_cases hx : ',' ∈ s
      · rw [if_pos hx]
        cases hg : goAtoi (s.takeWhile (· != ',')) with
        | none => simp
        | some x =>
          have hlt := length_dropTail_lt hx
          exact ihX w h x _ (by omega)
      · rw [if_neg hx]
        simp
    · intro w h x s hc
      rw [parseAfterX]
      cases hg : goAtoi (s.takeWhile (fun c => !isNodeEnd c)) with
      | none => simp
      | some y =>
        have hle := length_dropWhile_le' (fun c => !isNodeEnd c) s
        exact ihT w h x y _ (by omega)
    · intro w h x y s hc
      cases s with
      | nil => rw [parseTail]; simp
      | cons c s5 =>
        rw [parseTail]
        by_cases h1 : c = '{'
        · rw [if_pos h1]
          have hs := ihC s5 '}' (by simp at hc ⊢; omega)
          obtain ⟨v, hv⟩ := Option.isSome_iff_exists.mp hs
          rw [hv]
          cases v with
          | error e => simp
          | ok p => cases p; simp
        rw [if_neg h1]
        by_cases h2 : c = '['
        · rw [if_pos h2]
          have hs := ihC s5 ']' (by simp at hc ⊢; omega)
          obtain ⟨v, hv⟩ := Option.isSome_iff_exists.mp hs
          rw [hv]
          cases v with
          | error e => simp
          | ok p => cases p; simp
        rw [if_neg h2]
        by_cases h3 : c = ','
        · rw [if_pos h3]
          cases goAtoi (s5.takeWhile (fun c => !isPaneEnd c)) <;> simp
        rw [if_neg h3]
        by_cases h4 : c = '}' ∨ c = ']'
        · rw [if_pos h4]
          simp
        · rw [if_neg h4]
          simp
    · intro s e hc
      cases s with
      | nil => rw [parseChildren]; simp
      | cons c s4 =>
        rw [parseChildren]
        by_cases h1 : c = e
        · rw [if_pos h1]
          simp
        · rw [if_neg h1]
          have hn := ihN (c :: s4) (by simp at hc ⊢; omega)
          obtain ⟨v, hv⟩ := Option.isSome_iff_exists.mp hn
          rw [hv]
          cases v with
          | error err => simp
          | ok p =>
            obtain ⟨child, rest⟩ := p
            have hsh := (parse_shrink f).1 _ _ _ hv
            have hr1 : (if rest.head? = some ',' then rest.tail else rest).length ≤
                rest.length := by
              split
              · rw [List.length_tail]; omega
              · omega
            have hcs := ihC (if rest.head? = some ',' then rest.tail else rest) e
              (by simp at hc; rw [List.length_cons] at hsh; omega)
            obtain ⟨v2, hv2⟩ := Option.isSome_iff_exists.mp hcs
            simp only [hv2]
            cases v2 with
            | error err => simp
            | ok p2 => cases p2; simp


/-- C10: the parser is a total function of its input: with the fuel
`ParseLayout` supplies (6·length+5), `parseNode` always returns a
value — a tree or an error, never the out-of-fuel marker — and every
successful `parseNode` consumes at least one character of the input,
which is why each iteration of the `parseChildren` loop makes
progress. -/
theorem parser_terminates :
    (∀ s fuel, 6 * s.length + 5 ≤ fuel → (parseNode s fuel).isSome) ∧
    (∀ fuel s t r, parseNode s fuel = some (.ok (t, r)) → r.length < s.length) := by
  constructor
  · intro s fuel h
    exact (parse_total fuel).1 s h
  · intro fuel s t r h
    exact (parse_shrink fuel).1 s t r h

/-- Witness for C10 at a concrete leaf layout body. -/
theorem parser_terminates_witness :
    (parseNode "1x1,0,0,5".toList 100).isSome ∧
    ("".toList).length < ("1x1,0,0,5".toList).length :=
  ⟨parser_terminates.1 "1x1,0,0,5".toList 100 (by decide),
   parser_terminates.2 100 "1x1,0,0,5".toList (.mk 1 1 0 0 5 SplitType.none []) []
     (by rfl)⟩

/-- Reading back a digit character gives the digit. -/
theorem charDigit_digitToChar {d : Nat} (h : d < 10) :
    charDigit (digitToChar d) = some d := by
  interval_cases d <;> decide

theorem natDigits_charDigit : ∀ (n : Nat), ∀ c ∈ natDigits n, (charDigit c).isSome := by
  intro n
  induction n using Nat.strong_induction_on with
  | _ n ih =>
    intro c hc
    rw [natDigits] at hc
    by_cases h : n < 10
    · rw [dif_pos h] at hc
      rcases List.mem_singleton.mp hc with rfl
      rw [charDigit_digitToChar h]
      rfl
    · rw [dif_neg h] at hc
      rcases List.mem_append.mp hc with h1 | h2
      · exact ih (n / 10) (Nat.div_lt_self (by omega) (by omega)) c h1
      · rcases List.mem_singleton.mp h2 with rfl
        rw [charDigit_digitToChar (Nat.mod_lt _ (by omega))]
        rfl

theorem natDigits_ne_nil (n : Nat) : natDigits n ≠ [] := by
  rw [natDigits]
  by_cases h : n < 10
  · rw [dif_pos h]
    simp
  · rw [dif_neg h]
    simp

theorem parseDigitsAux_append (acc : Nat) (l1 l2 : List Char) :
    parseDigitsAux acc (l1 ++ l2) =
      match parseDigitsAux acc l1 with
      | some v => parseDigitsAux v l2
      | none => none := by
  induction l1 generalizing acc with
  | nil => rfl
  | cons c cs ih =>
    rw [List.cons_append, parseDigitsAux, parseDigitsAux]
    cases charDigit c with
    | none => rfl
    | some d => exact ih (acc * 10 + d)

theorem parseDigitsAux_natDigits : ∀ (n : Nat) (acc : Nat),
    parseDigitsAux acc (natDigits n) = some (acc * 10 ^ (natDigits n).length + n) := by
  intro n
  induction n using Nat.strong_induction_on with
  | _ n ih =>
    intro acc
    rw [natDigits]
    by_cases h : n < 10
    · rw [dif_pos h]
      simp only [parseDigitsAux, charDigit_digitToChar h]
      simp
    · rw [dif_neg h]
      rw [parseDigitsAux_append]
      rw [ih (n / 10) (Nat.div_lt_self (by omega) (by omega)) acc]
      simp only [parseDigitsAux, charDigit_digitToChar (Nat.mod_lt _ (by omega))]
      rw [List.length_append, List.length_singleton]
      have : acc * 10 ^ ((natDigits (n / 10)).length + 1) =
          acc * 10 ^ (natDigits (n / 10)).length * 10 := by ring
      rw [this]
      have hn : (acc * 10 ^ (natDigits (n / 10)).length + n / 10) * 10 + n % 10 =
          acc * 10 ^ (natDigits (n / 10)).length * 10 + n := by
        have := Nat.div_add_mod n 10
        ring_nf
        omega
      rw [hn]

theorem parseDigits_natDigits (n : Nat) : parseDigits (natDigits n) = some n := by
  rcases hne : natDigits n with _ | ⟨c, cs⟩
  · exact absurd hne (natDigits_ne_nil n)
  · rw [parseDigits, ← hne, parseDigitsAux_natDigits]
    simp

/-- Round trip of the integer codec: `strconv.Atoi` inverts `%d`. -/
theorem goAtoi_intStr (n : Int) : goAtoi (intStr n) = some n := by
  rw [intStr]
  by_cases h : n < 0
  · rw [if_pos h, goAtoi, if_pos rfl, parseDigits_natDigits]
    simp
    omega
  · rw [if_neg h]
    rcases hne : natDigits n.toNat with _ | ⟨c, cs⟩
    · exact absurd hne (natDigits_ne_nil n.toNat)
    · have hdig : (charDigit c).isSome := by
        apply natDigits_charDigit n.toNat
        rw [hne]
        exact List.mem_cons_self c cs
      have hc1 : ¬ c = '-' := by
        intro hcc
        rw [hcc] at hdig
        simp [charDigit] at hdig
      have hc2 : ¬ c = '+' := by
        intro hcc
        rw [hcc] at hdig
        simp [charDigit] at hdig
      rw [goAtoi, if_neg hc1, if_neg hc2, ← hne, parseDigits_natDigits]
      simp
      omega

theorem charDigit_class {c : Char} (h : (charDigit c).isSome) :
    (c != 'x') = true ∧ (c != ',') = true ∧ (!isNodeEnd c) = true ∧
      (!isPaneEnd c) = true := by
  unfold charDigit at h
  split_ifs at h with h0 h1 h2 h3 h4 h5 h6 h7 h8 h9
  · subst h0; decide
  · subst h1; decide
  · subst h2; decide
  · subst h3; decide
  · subst h4; decide
  · subst h5; decide
  · subst h6; decide
  · subst h7; decide
  · subst h8; decide
  · subst h9; decide
  · simp at h

theorem intStr_char_ok (n : Int) : ∀ c ∈ intStr n,
    (c != 'x') = true ∧ (c != ',') = true ∧ (!isNodeEnd c) = true ∧
      (!isPaneEnd c) = true := by
  intro c hc
  rw [intStr] at hc
  by_cases h : n < 0
  · rw [if_pos h] at hc
    rcases List.mem_cons.mp hc with rfl | h2
    · decide
    · exact charDigit_class (natDigits_charDigit _ c h2)
  · rw [if_neg h] at hc
    exact charDigit_class (natDigits_charDigit _ c hc)

theorem intStr_ne_nil (n : Int) : intStr n ≠ [] := by
  rw [intStr]
  by_cases h : n < 0
  · rw [if_pos h]
    simp
  · rw [if_neg h]
    exact natDigits_ne_nil _

theorem takeWhile_append_stop {p : Char → Bool} {l1 : List Char} (c : Char)
    (l2 : List Char) (h1 : ∀ x ∈ l1, p x = true) (h2 : p c = false) :
    (l1 ++ c :: l2).takeWhile p = l1 := by
  rw [List.takeWhile_append_of_pos h1, List.takeWhile_cons_of_neg (by simp [h2]),
    List.append_nil]

theorem dropWhile_append_stop {p : Char → Bool} {l1 : List Char} (c : Char)
    (l2 : List Char) (h1 : ∀ x ∈ l1, p x = true) (h2 : p c = false) :
    (l1 ++ c :: l2).dropWhile p = c :: l2 := by
  rw [List.dropWhile_append_of_pos h1, List.dropWhile_cons_of_neg (by simp [h2])]

theorem takeWhile_all {p : Char → Bool} {l : List Char}
    (h1 : ∀ x ∈ l, p x = true) : l.takeWhile p = l := by
  have : (l ++ ([] : List Char)).takeWhile p = l ++ ([] : List Char).takeWhile p :=
    List.takeWhile_append_of_pos h1
  simpa using this

theorem dropWhile_all {p : Char → Bool} {l : List Char}
    (h1 : ∀ x ∈ l, p x = true) : l.dropWhile p = [] := by
  have : (l ++ ([] : List Char)).dropWhile p = ([] : List Char).dropWhile p :=
    List.dropWhile_append_of_pos h1
  simpa using this

theorem parseNode_print (w : Int) (s : List Char) (fuel : Nat) :
    parseNode (intStr w ++ 'x' :: s) (fuel + 1) = parseAfterWidth w s fuel := by
  have hmem : 'x' ∈ intStr w ++ 'x' :: s :=
    List.mem_append_right _ (List.mem_cons_self _ _)
  have hchars : ∀ c ∈ intStr w, (c != 'x') = true :=
    fun c hc => (intStr_char_ok w c hc).1
  simp only [parseNode, if_pos hmem,
    takeWhile_append_stop 'x' s hchars (by decide),
    dropWhile_append_stop 'x' s hchars (by decide),
    goAtoi_intStr, List.tail_cons]

theorem parseAfterWidth_print (w h : Int) (s : List Char) (fuel : Nat) :
    parseAfterWidth w (intStr h ++ ',' :: s) (fuel + 1) = parseAfterHeight w h s fuel := by
  have hmem : ',' ∈ intStr h ++ ',' :: s :=
    List.mem_append_right _ (List.mem_cons_self _ _)
  have hchars : ∀ c ∈ intStr h, (c != ',') = true :=
    fun c hc => (intStr_char_ok h c hc).2.1
  simp only [parseAfterWidth, if_pos hmem,
    takeWhile_append_stop ',' s hchars (by decide),
    dropWhile_append_stop ',' s hchars (by decide),
    goAtoi_intStr, List.tail_cons]

theorem parseAfterHeight_print (w h x : Int) (s : List Char) (fuel : Nat) :
    parseAfterHeight w h (intStr x ++ ',' :: s) (fuel + 1) = parseAfterX w h x s fuel := by
  have hmem : ',' ∈ intStr x ++ ',' :: s :=
    List.mem_append_right _ (List.mem_cons_self _ _)
  have hchars : ∀ c ∈ intStr x, (c != ',') = true :=
    fun c hc => (intStr_char_ok x c hc).2.1
  simp only [parseAfterHeight, if_pos hmem,
    takeWhile_append_stop ',' s hchars (by decide),
    dropWhile_append_stop ',' s hchars (by decide),
    goAtoi_intStr, List.tail_cons]

theorem parseAfterX_print (w h x y : Int) (c : Char) (s : List Char) (fuel : Nat)
    (hc : isNodeEnd c = true) :
    parseAfterX w h x (intStr y ++ c :: s) (fuel + 1) = parseTail w h x y (c :: s) fuel := by
  have hchars : ∀ d ∈ intStr y, (!isNodeEnd d) = true :=
    fun d hd => (intStr_char_ok y d hd).2.2.1
  simp only [parseAfterX,
    takeWhile_append_stop c s hchars (by simp [hc]),
    dropWhile_append_stop c s hchars (by simp [hc]),
    goAtoi_intStr]

theorem parseTail_leaf (w h x y p : Int) (r : List Char) (fuel : Nat)
    (hr : PaneEndOk r) :
    parseTail w h x y (',' :: (intStr p ++ r)) (fuel + 1) =
      some (.ok (.mk w h x y p SplitType.none [], r)) := by
  have hchars : ∀ d ∈ intStr p, (!isPaneEnd d) = true :=
    fun d hd => (intStr_char_ok p d hd).2.2.2
  rcases hr with rfl | ⟨c, r2, rfl, hc⟩
  · simp only [parseTail, if_neg (by decide : ¬ (',' : Char) = '{'),
      if_neg (by decide : ¬ (',' : Char) = '['), if_pos rfl,
      List.append_nil, takeWhile_all hchars, dropWhile_all hchars,
      goAtoi_intStr]
    simp
  · simp only [parseTail, if_neg (by decide : ¬ (',' : Char) = '{'),
      if_neg (by decide : ¬ (',' : Char) = '['), if_pos rfl,
      takeWhile_append_stop c r2 hchars (by simp [hc]),
      dropWhile_append_stop c r2 hchars (by simp [hc]),
      goAtoi_intStr]
    simp

theorem parseNode_print_fuel (w h x y : Int) (c : Char) (s : List Char)
    (hc : isNodeEnd c = true) :
    ∀ fuel : Nat,
      (parseNode (intStr w ++ 'x' :: (intStr h ++ ',' :: (intStr x ++ ',' ::
        (intStr y ++ c :: s)))) fuel).isSome →
      ∃ f, fuel = f + 1 + 1 + 1 + 1 ∧
        parseNode (intStr w ++ 'x' :: (intStr h ++ ',' :: (intStr x ++ ',' ::
          (intStr y ++ c :: s)))) fuel = parseTail w h x y (c :: s) f := by
  intro fuel hsome
  rcases fuel with _ | fuel
  · simp [parseNode] at hsome
  rw [parseNode_print] at hsome ⊢
  rcases fuel with _ | fuel
  · simp [parseAfterWidth] at hsome
  rw [parseAfterWidth_print] at hsome ⊢
  rcases fuel with _ | fuel
  · simp [parseAfterHeight] at hsome
  rw [parseAfterHeight_print] at hsome ⊢
  rcases fuel with _ | fuel
  · simp [parseAfterX] at hsome
  rw [parseAfterX_print _ _ _ _ _ _ _ hc] at hsome ⊢
  exact ⟨fuel, rfl, rfl⟩

theorem buildNodeString_props (t : LayoutNode) :
    ∃ d ds, buildNodeString t = d :: ds ∧ (!isPaneEnd d) = true ∧
      (d != ',') = true := by
  cases t with
  | mk w h x y p st cs =>
    rcases hw : intStr w with _ | ⟨d, ds'⟩
    · exact absurd hw (intStr_ne_nil w)
    · have h1 : d ∈ intStr w := by rw [hw]; exact List.mem_cons_self _ _
      cases st
      · exact ⟨d, ds' ++ 'x' :: intStr h ++ ',' :: intStr x ++ ',' :: intStr y ++
          ',' :: intStr p, by simp [buildNodeString, hw],
          (intStr_char_ok w d h1).2.2.2, (intStr_char_ok w d h1).2.1⟩
      · exact ⟨d, ds' ++ 'x' :: intStr h ++ ',' :: intStr x ++ ',' :: intStr y ++
          '{' :: joinComma (buildChildrenStrings cs) ++ ['}'],
          by simp [buildNodeString, hw],
          (intStr_char_ok w d h1).2.2.2, (intStr_char_ok w d h1).2.1⟩
      · exact ⟨d, ds' ++ 'x' :: intStr h ++ ',' :: intStr x ++ ',' :: intStr y ++
          '[' :: joinComma (buildChildrenStrings cs) ++ [']'],
          by simp [buildNodeString, hw],
          (intStr_char_ok w d h1).2.2.2, (intStr_char_ok w d h1).2.1⟩

/-- Core round trip: on parser-image trees, parsing the serialised
node (followed by a legal remainder) returns exactly that tree,
whenever the fuel suffices. -/
theorem reparse : ∀ fuel : Nat,
    (∀ t r, GoodTree t → PaneEndOk r →
      (parseNode (buildNodeString t ++ r) fuel).isSome →
      parseNode (buildNodeString t ++ r) fuel = some (.ok (t, r))) ∧
    (∀ cs e r, GoodForest cs → (e = '}' ∨ e = ']') →
      (parseChildren (joinComma (buildChildrenStrings cs) ++ e :: r) e fuel).isSome →
      parseChildren (joinComma (buildChildrenStrings cs) ++ e :: r) e fuel =
        some (.ok (cs, r))) := by
  intro fuel
  induction fuel using Nat.strong_induction_on with
  | _ fuel ih =>
    constructor
    · intro t r hgt hr hsome
      cases hgt with
      | leaf w h x y p =>
        have hshape : buildNodeString (.mk w h x y p SplitType.none []) ++ r =
            intStr w ++ 'x' :: (intStr h ++ ',' :: (intStr x ++ ',' ::
              (intStr y ++ ',' :: (intStr p ++ r)))) := by
          simp [buildNodeString, List.append_assoc]
        rw [hshape] at hsome ⊢
        obtain ⟨f, rfl, heq⟩ :=
          parseNode_print_fuel w h x y ',' (intStr p ++ r) (by decide) _ hsome
        rw [heq] at hsome ⊢
        rcases f with _ | f
        · simp [parseTail] at hsome
        · exact parseTail_leaf w h x y p r f hr
      | hsplit w h x y cs hf =>
        have hshape : buildNodeString (.mk w h x y (-1) SplitType.horizontal cs) ++ r =
            intStr w ++ 'x' :: (intStr h ++ ',' :: (intStr x ++ ',' ::
              (intStr y ++ '{' :: (joinComma (buildChildrenStrings cs) ++ '}' :: r)))) := by
          simp [buildNodeString, List.append_assoc]
        rw [hshape] at hsome ⊢
        obtain ⟨f, rfl, heq⟩ :=
          parseNode_print_fuel w h x y '{'
            (joinComma (buildChildrenStrings cs) ++ '}' :: r) (by decide) _ hsome
        rw [heq] at hsome ⊢
        rcases f with _ | f
        · simp [parseTail] at hsome
        rw [parseTail, if_pos rfl] at hsome ⊢
        rcases hpc : parseChildren (joinComma (buildChildrenStrings cs) ++ '}' :: r) '}' f
          with _ | v
        · rw [hpc] at hsome
          simp at hsome
        · have hsub : (parseChildren (joinComma (buildChildrenStrings cs) ++ '}' :: r)
              '}' f).isSome := by rw [hpc]; rfl
          have h2 := (ih f (by omega)).2 cs '}' r hf (Or.inl rfl) hsub
          rw [hpc] at h2
          obtain rfl := Option.some.inj h2
          rfl
      | vsplit w h x y cs hf =>
        have hshape : buildNodeString (.mk w h x y (-1) SplitType.vertical cs) ++ r =
            intStr w ++ 'x' :: (intStr h ++ ',' :: (intStr x ++ ',' ::
              (intStr y ++ '[' :: (joinComma (buildChildrenStrings cs) ++ ']' :: r)))) := by
          simp [buildNodeString, List.append_assoc]
        rw [hshape] at hsome ⊢
        obtain ⟨f, rfl, heq⟩ :=
          parseNode_print_fuel w h x y '['
            (joinComma (buildChildrenStrings cs) ++ ']' :: r) (by decide) _ hsome
        rw [heq] at hsome ⊢
        rcases f with _ | f
        · simp [parseTail] at hsome
        rw [parseTail, if_neg (by decide : ¬ ('[' : Char) = '{'), if_pos rfl] at hsome ⊢
        rcases hpc : parseChildren (joinComma (buildChildrenStrings cs) ++ ']' :: r) ']' f
          with _ | v
        · rw [hpc] at hsome
          simp at hsome
        · have hsub : (parseChildren (joinComma (buildChildrenStrings cs) ++ ']' :: r)
              ']' f).isSome := by rw [hpc]; rfl
          have h2 := (ih f (by omega)).2 cs ']' r hf (Or.inr rfl) hsub
          rw [hpc] at h2
          obtain rfl := Option.some.inj h2
          rfl
    · intro cs e r hgf he hsome
      cases hgf with
      | nil =>
        have hshape : joinComma (buildChildrenStrings ([] : List LayoutNode)) ++ e :: r =
            e :: r := rfl
        rw [hshape] at hsome ⊢
        rcases fuel with _ | f
        · simp [parseChildren] at hsome
        · rw [parseChildren, if_pos rfl]
      | @cons t1 cs1 ht hf =>
        obtain ⟨d, ds, hbs, hdp, hdc⟩ := buildNodeString_props t1
        have hde : ¬ d = e := by
          rcases he with rfl | rfl <;> · intro hdd; rw [hdd] at hdp; simp [isPaneEnd] at hdp
        rcases cs1 with _ | ⟨t2, cs2⟩
        · have hshape : joinComma (buildChildrenStrings [t1]) ++ e :: r =
              buildNodeString t1 ++ e :: r := rfl
          rw [hshape, hbs, List.cons_append] at hsome ⊢
          rcases fuel with _ | f
          · simp [parseChildren] at hsome
          rw [parseChildren, if_neg hde] at hsome ⊢
          have hback : d :: (ds ++ e :: r) = buildNodeString t1 ++ e :: r := by
            rw [hbs, List.cons_append]
          rw [hback] at hsome ⊢
          have hsub : (parseNode (buildNodeString t1 ++ e :: r) f).isSome := by
            rcases hpn : parseNode (buildNodeString t1 ++ e :: r) f with _ | v
            · rw [hpn] at hsome
              simp at hsome
            · rfl
          have hterm : PaneEndOk (e :: r) :=
            Or.inr ⟨e, r, rfl, by rcases he with rfl | rfl <;> decide⟩
          have h1 := (ih f (by omega)).1 t1 (e :: r) ht hterm hsub
          simp only [h1] at hsome ⊢
          have hskip : (if (e :: r).head? = some ',' then (e :: r).tail else (e :: r)) =
              e :: r := by
            rcases he with rfl | rfl <;> simp
          rw [hskip] at hsome ⊢
          have hsub2 : (parseChildren (e :: r) e f).isSome := by
            rcases hpc : parseChildren (e :: r) e f with _ | v2
            · rw [hpc] at hsome
              simp at hsome
            · rfl
          have h2 : parseChildren (e :: r) e f = some (.ok ([], r)) :=
            (ih f (by omega)).2 [] e r GoodForest.nil he hsub2
          rw [h2]
        · have hshape : joinComma (buildChildrenStrings (t1 :: t2 :: cs2)) ++ e :: r =
              buildNodeString t1 ++ ',' ::
                (joinComma (buildChildrenStrings (t2 :: cs2)) ++ e :: r) := by
            simp [buildChildrenStrings, joinComma, List.append_assoc]
          rw [hshape, hbs, List.cons_append] at hsome ⊢
          rcases fuel with _ | f
          · simp [parseChildren] at hsome
          rw [parseChildren, if_neg hde] at hsome ⊢
          have hback : d :: (ds ++ ',' :: (joinComma (buildChildrenStrings (t2 :: cs2)) ++
              e :: r)) = buildNodeString t1 ++ ',' ::
                (joinComma (buildChildrenStrings (t2 :: cs2)) ++ e :: r) := by
            rw [hbs, List.cons_append]
          rw [hback] at hsome ⊢
          have hsub : (parseNode (buildNodeString t1 ++ ',' ::
              (joinComma (buildChildrenStrings (t2 :: cs2)) ++ e :: r)) f).isSome := by
            rcases hpn : parseNode (buildNodeString t1 ++ ',' ::
                (joinComma (buildChildrenStrings (t2 :: cs2)) ++ e :: r)) f with _ | v
            · rw [hpn] at hsome
              simp at hsome
            · rfl
          have hterm : PaneEndOk (',' :: (joinComma (buildChildrenStrings (t2 :: cs2)) ++
              e :: r)) := Or.inr ⟨',', _, rfl, by decide⟩
          have h1 := (ih f (by omega)).1 t1 _ ht hterm hsub
          simp only [h1] at hsome ⊢
          have hskip : (if (',' :: (joinComma (buildChildrenStrings (t2 :: cs2)) ++
              e :: r)).head? = some ',' then (',' :: (joinComma (buildChildrenStrings
                (t2 :: cs2)) ++ e :: r)).tail
              else (',' :: (joinComma (buildChildrenStrings (t2 :: cs2)) ++ e :: r))) =
              joinComma (buildChildrenStrings (t2 :: cs2)) ++ e :: r := by
            simp
          rw [hskip] at hsome ⊢
          have hsub2 : (parseChildren (joinComma (buildChildrenStrings (t2 :: cs2)) ++
              e :: r) e f).isSome := by
            rcases hpc : parseChildren (joinComma (buildChildrenStrings (t2 :: cs2)) ++
                e :: r) e f with _ | v2
            · rw [hpc] at hsome
              simp at hsome
            · rfl
          have h2 := (ih f (by omega)).2 (t2 :: cs2) e r hf he hsub2
          rw [h2]

/-- Every tree the parser returns is in the parser image
(`GoodTree`): leaves have no children, split nodes carry pane id -1. -/
theorem parse_good : ∀ (fuel : Nat),
    (∀ s t r, parseNode s fuel = some (.ok (t, r)) → GoodTree t) ∧
    (∀ w s t r, parseAfterWidth w s fuel = some (.ok (t, r)) → GoodTree t) ∧
    (∀ w h s t r, parseAfterHeight w h s fuel = some (.ok (t, r)) → GoodTree t) ∧
    (∀ w h x s t r, parseAfterX w h x s fuel = some (.ok (t, r)) → GoodTree t) ∧
    (∀ w h x y s t r, parseTail w h x y s fuel = some (.ok (t, r)) → GoodTree t) ∧
    (∀ s e cs r, parseChildren s e fuel = some (.ok (cs, r)) → GoodForest cs) := by
  intro fuel
  induction fuel with
  | zero =>
    refine ⟨?_, ?_, ?_, ?_, ?_, ?_⟩
    · intro s t r h
      rw [parseNode] at h
      exact absurd h (by simp)
    · intro w s t r h
      rw [parseAfterWidth] at h
      exact absurd h (by simp)
    · intro w hh s t r h
      rw [parseAfterHeight] at h
      exact absurd h (by simp)
    · intro w hh xx s t r h
      rw [parseAfterX] at h
      exact absurd h (by simp)
    · intro w hh xx yy s t r h
      rw [parseTail] at h
      exact absurd h (by simp)
    · intro s e cs r h
      rw [parseChildren] at h
      exact absurd h (by simp)
  | succ f ih =>
    obtain ⟨ihN, ihW, ihH, ihX, ihT, ihC⟩ := ih
    refine ⟨?_, ?_, ?_, ?_, ?_, ?_⟩
    · intro s t r h
      rw [parseNode] at h
      split at h
      case isFalse => exact absurd h (by simp)
      split at h
      case h_1 => exact absurd h (by simp)
      exact ihW _ _ _ _ h
    · intro w s t r h
      rw [parseAfterWidth] at h
      split at h
      case isFalse => exact absurd h (by simp)
      split at h
      case h_1 => exact absurd h (by simp)
      exact ihH _ _ _ _ _ h
    · intro w hh s t r h
      rw [parseAfterHeight] at h
      split at h
      case isFalse => exact absurd h (by simp)
      split at h
      case h_1 => exact absurd h (by simp)
      exact ihX _ _ _ _ _ _ h
    · intro w hh xx s t r h
      rw [parseAfterX] at h
      split at h
      case h_1 => exact absurd h (by simp)
      exact ihT _ _ _ _ _ _ _ h
    · intro w hh xx yy s t r h
      cases s with
      | nil =>
        rw [parseTail] at h
        simp only [Option.some.injEq, Except.ok.injEq, Prod.mk.injEq] at h
        obtain ⟨ht, -⟩ := h
        rw [← ht]
        exact GoodTree.leaf _ _ _ _ _
      | cons c s5 =>
        rw [parseTail] at h
        split at h
        · split at h
          case h_1 => exact absurd h (by simp)
          case h_2 => exact absurd h (by simp)
          rename_i cs0 rest0 hrec
          simp only [Option.some.injEq, Except.ok.injEq, Prod.mk.injEq] at h
          obtain ⟨ht, -⟩ := h
          rw [← ht]
          exact GoodTree.hsplit _ _ _ _ _ (ihC _ _ _ _ hrec)
        split at h
        · split at h
          case h_1 => exact absurd h (by simp)
          case h_2 => exact absurd h (by simp)
          rename_i cs0 rest0 hrec
          simp only [Option.some.injEq, Except.ok.injEq, Prod.mk.injEq] at h
          obtain ⟨ht, -⟩ := h
          rw [← ht]
          exact GoodTree.vsplit _ _ _ _ _ (ihC _ _ _ _ hrec)
        split at h
        · split at h
          case h_1 => exact absurd h (by simp)
          simp only [Option.some.injEq, Except.ok.injEq, Prod.mk.injEq] at h
          obtain ⟨ht, -⟩ := h
          rw [← ht]
          exact GoodTree.leaf _ _ _ _ _
        split at h
        · simp only [Option.some.injEq, Except.ok.injEq, Prod.mk.injEq] at h
          obtain ⟨ht, -⟩ := h
          rw [← ht]
          exact GoodTree.leaf _ _ _ _ _
        · exact absurd h (by simp)
    · intro s e cs r h
      cases s with
      | nil =>
        rw [parseChildren] at h
        simp only [Option.some.injEq, Except.ok.injEq, Prod.mk.injEq] at h
        obtain ⟨hcs, -⟩ := h
        rw [← hcs]
        exact GoodForest.nil
      | cons c s1 =>
        rw [parseChildren] at h
        split at h
        · simp only [Option.some.injEq, Except.ok.injEq, Prod.mk.injEq] at h
          obtain ⟨hcs, -⟩ := h
          rw [← hcs]
          exact GoodForest.nil
        · split at h
          case h_1 => exact absurd h (by simp)
          case h_2 => exact absurd h (by simp)
          rename_i child rest hnode
          split at h
          case h_1 => exact absurd h (by simp)
          case h_2 => exact absurd h (by simp)
          rename_i cs2 rest2 hrec
          simp only [Option.some.injEq, Except.ok.injEq, Prod.mk.injEq] at h
          obtain ⟨hcs, -⟩ := h
          rw [← hcs]
          exact GoodForest.cons (ihN _ _ _ hnode) (ihC _ _ _ _ hrec)

theorem hexDigit_ne_comma (n : Nat) : (hexDigit n != ',') = true := by
  unfold hexDigit
  split <;> decide

theorem hex4_ne_comma (n : Nat) : ∀ c ∈ hex4 n, (c != ',') = true := by
  intro c hc
  simp only [hex4, List.mem_cons, List.not_mem_nil, or_false] at hc
  rcases hc with rfl | rfl | rfl | rfl <;> exact hexDigit_ne_comma _

/-- C2: for every layout text on which `ParseLayout` succeeds with
tree `t`, re-parsing `BuildLayout t` succeeds and returns a tree
structurally identical to `t` (same shape, sizes, coordinates, pane
ids and split kinds); only the leading checksum field of the text may
differ. -/
theorem c2_roundtrip (layout : List Char) (t : LayoutNode)
    (h : ParseLayout layout = .ok t) : ParseLayout (BuildLayout t) = .ok t := by
  have hgood : GoodTree t := by
    simp only [ParseLayout] at h
    split at h
    case isFalse => exact absurd h (by simp)
    split at h
    case h_1 => exact absurd h (by simp)
    case h_2 => exact absurd h (by simp)
    rename_i node rest2 hpn
    simp only [Except.ok.injEq] at h
    rw [← h]
    exact (parse_good _).1 _ _ _ hpn
  have hmem : ',' ∈ BuildLayout t :=
    List.mem_append_right _ (List.mem_cons_self _ _)
  rw [BuildLayout] at hmem
  have hdrop : ((hex4 (calculateChecksum (buildNodeString t)) ++
      ',' :: buildNodeString t).dropWhile (· != ',')).tail = buildNodeString t := by
    rw [dropWhile_append_stop ',' (buildNodeString t) (hex4_ne_comma _) (by decide)]
    rfl
  simp only [BuildLayout, ParseLayout, if_pos hmem, hdrop]
  have hsome : (parseNode (buildNodeString t)
      (6 * (buildNodeString t).length + 5)).isSome :=
    (parse_total _).1 _ (le_refl _)
  have hro : parseNode (buildNodeString t) (6 * (buildNodeString t).length + 5) =
      some (.ok (t, [])) := by
    have h1 := (reparse (6 * (buildNodeString t).length + 5)).1 t [] hgood (Or.inl rfl)
    rw [List.append_nil] at h1
    exact h1 hsome
  simp only [hro]

/-- Counterexample to C6: an input whose split-open bracket is never
closed is accepted, not rejected — `parseChildren` treats end of
input as an implicit close. -/
theorem c6_counterexample :
    ParseLayout ("aaaa,100x50,0,0\x7b10x50,0,0,1".toList) =
      .ok (.mk 100 50 0 0 (-1) SplitType.horizontal
        [.mk 10 50 0 0 1 SplitType.none []]) := by decide

/-- Unfolding of `ParseLayout` once the checksum separator exists. -/
theorem ParseLayout_eq_parseNode (layout : List Char) (hmem : ',' ∈ layout) :
    ParseLayout layout =
      match parseNode (restAfterChecksum layout)
          (6 * (restAfterChecksum layout).length + 5) with
      | Option.none => .error "internal: out of fuel"
      | some (.error e) => .error e
      | some (.ok (node, _)) => .ok node := by
  simp only [ParseLayout, restAfterChecksum, if_pos hmem]

theorem parseNode_invalid_width (s : List Char) (f : Nat)
    (hx : 'x' ∈ s) (hw : goAtoi (s.takeWhile (· != 'x')) = Option.none) :
    parseNode s (f + 1) = some (.error "invalid width") := by
  rw [parseNode, if_pos hx]
  simp only [hw]

theorem parseNode_invalid_height (s : List Char) (w : Int) (f : Nat)
    (hx : 'x' ∈ s) (hw : goAtoi (s.takeWhile (· != 'x')) = some w)
    (hc : ',' ∈ (s.dropWhile (· != 'x')).tail)
    (hh : goAtoi (((s.dropWhile (· != 'x')).tail).takeWhile (· != ',')) =
      Option.none) :
    parseNode s (f + 1 + 1) = some (.error "invalid height") := by
  rw [parseNode, if_pos hx]
  simp only [hw]
  rw [parseAfterWidth, if_pos hc]
  simp only [hh]

theorem parseAfterWidth_invalid_x (w : Int) (s : List Char) (h : Int) (f : Nat)
    (hc : ',' ∈ s) (hh : goAtoi (s.takeWhile (· != ',')) = some h)
    (hc2 : ',' ∈ (s.dropWhile (·  != ',')).tail)
    (hx : goAtoi (((s.dropWhile (· != ',')).tail).takeWhile (· != ',')) =
      Option.none) :
    parseAfterWidth w s (f + 1 + 1) = some (.error "invalid x") := by
  rw [parseAfterWidth, if_pos hc]
  simp only [hh]
  rw [parseAfterHeight, if_pos hc2]
  simp only [hx]

theorem parseAfterHeight_invalid_y (w h : Int) (s : List Char) (x : Int) (f : Nat)
    (hc : ',' ∈ s) (hx : goAtoi (s.takeWhile (· != ',')) = some x)
    (hy : goAtoi (((s.dropWhile (· != ',')).tail).takeWhile
      (fun c => !isNodeEnd c)) = Option.none) :
    parseAfterHeight w h s (f + 1 + 1) = some (.error "invalid y") := by
  rw [parseAfterHeight, if_pos hc]
  simp only [hx]
  rw [parseAfterX]
  simp only [hy]

theorem parseAfterX_invalid_pane (w h x : Int) (s : List Char) (y : Int)
    (s6 : List Char) (f : Nat)
    (hy : goAtoi (s.takeWhile (fun c => !isNodeEnd c)) = some y)
    (hd : s.dropWhile (fun c => !isNodeEnd c) = ',' :: s6)
    (hp : goAtoi (s6.takeWhile (fun c => !isPaneEnd c)) = Option.none) :
    parseAfterX w h x s (f + 1 + 1) = some (.error "invalid pane ID") := by
  rw [parseAfterX]
  simp only [hy, hd]
  rw [parseTail, if_neg (by decide : ¬ (',' : Char) = '{'),
    if_neg (by decide : ¬ (',' : Char) = '['), if_pos rfl]
  simp only [hp]

theorem parseNode_step (s : List Char) (w : Int) (f : Nat)
    (hx : 'x' ∈ s) (hw : goAtoi (s.takeWhile (· != 'x')) = some w) :
    parseNode s (f + 1) = parseAfterWidth w ((s.dropWhile (· != 'x')).tail) f := by
  rw [parseNode, if_pos hx]
  simp only [hw]

theorem parseAfterWidth_step (w : Int) (s : List Char) (h : Int) (f : Nat)
    (hc : ',' ∈ s) (hh : goAtoi (s.takeWhile (· != ',')) = some h) :
    parseAfterWidth w s (f + 1) =
      parseAfterHeight w h ((s.dropWhile (· != ',')).tail) f := by
  rw [parseAfterWidth, if_pos hc]
  simp only [hh]

theorem parseAfterHeight_step (w h : Int) (s : List Char) (x : Int) (f : Nat)
    (hc : ',' ∈ s) (hx : goAtoi (s.takeWhile (· != ',')) = some x) :
    parseAfterHeight w h s (f + 1) =
      parseAfterX w h x ((s.dropWhile (· != ',')).tail) f := by
  rw [parseAfterHeight, if_pos hc]
  simp only [hx]

/-- C6 (amended): `ParseLayout` fails whenever the comma stripping the
checksum field is missing, whenever the dimension field contains no
`x`, and — universally — whenever the substring scanned for the
width, height, `x`, `y`, or pane-id field is not a valid integer,
with the corresponding error.  But an unmatched open bracket is
tolerated (final conjunct and the counterexample): `parseChildren`
treats end of input as an implicit close, so the spec's list of
rejected inputs is too broad. -/
theorem parse_error_conditions :
    (∀ layout : List Char, ',' ∉ layout →
      ParseLayout layout = .error "invalid layout: no checksum separator") ∧
    (∀ layout : List Char, ',' ∈ layout →
      'x' ∉ restAfterChecksum layout →
      ParseLayout layout = .error "invalid node: no 'x' in dimensions") ∧
    (∀ layout : List Char, ',' ∈ layout →
      'x' ∈ restAfterChecksum layout →
      goAtoi ((restAfterChecksum layout).takeWhile (· != 'x')) = Option.none →
      ParseLayout layout = .error "invalid width") ∧
    (∀ (layout : List Char) (w : Int), ',' ∈ layout →
      'x' ∈ restAfterChecksum layout →
      goAtoi ((restAfterChecksum layout).takeWhile (· != 'x')) = some w →
      ',' ∈ restAfterWidth layout →
      goAtoi ((restAfterWidth layout).takeWhile (· != ',')) = Option.none →
      ParseLayout layout = .error "invalid height") ∧
    (∀ (layout : List Char) (w h : Int), ',' ∈ layout →
      'x' ∈ restAfterChecksum layout →
      goAtoi ((restAfterChecksum layout).takeWhile (· != 'x')) = some w →
      ',' ∈ restAfterWidth layout →
      goAtoi ((restAfterWidth layout).takeWhile (· != ',')) = some h →
      ',' ∈ restAfterHeight layout →
      goAtoi ((restAfterHeight layout).takeWhile (· != ',')) = Option.none →
      ParseLayout layout = .error "invalid x") ∧
    (∀ (layout : List Char) (w h x : Int), ',' ∈ layout →
      'x' ∈ restAfterChecksum layout →
      goAtoi ((restAfterChecksum layout).takeWhile (· != 'x')) = some w →
      ',' ∈ restAfterWidth layout →
      goAtoi ((restAfterWidth layout).takeWhile (· != ',')) = some h →
      ',' ∈ restAfterHeight layout →
      goAtoi ((restAfterHeight layout).takeWhile (· != ',')) = some x →
      goAtoi ((restAfterX layout).takeWhile (fun c => !isNodeEnd c)) = Option.none →
      ParseLayout layout = .error "invalid y") ∧
    (∀ (layout : List Char) (w h x y : Int) (s6 : List Char), ',' ∈ layout →
      'x' ∈ restAfterChecksum layout →
      goAtoi ((restAfterChecksum layout).takeWhile (· != 'x')) = some w →
      ',' ∈ restAfterWidth layout →
      goAtoi ((restAfterWidth layout).takeWhile (· != ',')) = some h →
      ',' ∈ restAfterHeight layout →
      goAtoi ((restAfterHeight layout).takeWhile (· != ',')) = some x →
      goAtoi ((restAfterX layout).takeWhile (fun c => !isNodeEnd c)) = some y →
      restAfterY layout = ',' :: s6 →
      goAtoi (s6.takeWhile (fun c => !isPaneEnd c)) = Option.none →
      ParseLayout layout = .error "invalid pane ID") ∧
    ParseLayout ("aaaa,1x1,0,0\x7b2x1,0,0,7".toList) =
      .ok (.mk 1 1 0 0 (-1) SplitType.horizontal
        [.mk 2 1 0 0 7 SplitType.none []]) := by
  refine ⟨?_, ?_, ?_, ?_, ?_, ?_, ?_, by decide⟩
  · intro layout hmem
    rw [ParseLayout, if_neg hmem]
  · intro layout hmem hx
    rw [ParseLayout_eq_parseNode layout hmem]
    have h1 : parseNode (restAfterChecksum layout)
        (6 * (restAfterChecksum layout).length + 4 + 1) =
        some (.error "invalid node: no 'x' in dimensions") := by
      rw [parseNode, if_neg hx]
    rw [show 6 * (restAfterChecksum layout).length + 5 =
      6 * (restAfterChecksum layout).length + 4 + 1 from rfl, h1]
  · intro layout hmem hx hw
    rw [ParseLayout_eq_parseNode layout hmem]
    rw [show 6 * (restAfterChecksum layout).length + 5 =
      6 * (restAfterChecksum layout).length + 4 + 1 from rfl,
      parseNode_invalid_width _ _ hx hw]
  · intro layout w hmem hx hw hc hh
    rw [ParseLayout_eq_parseNode layout hmem]
    rw [show 6 * (restAfterChecksum layout).length + 5 =
      6 * (restAfterChecksum layout).length + 3 + 1 + 1 from rfl,
      parseNode_invalid_height _ w _ hx hw hc hh]
  · intro layout w h hmem hx hw hc hh hc2 hx2
    rw [ParseLayout_eq_parseNode layout hmem]
    rw [show 6 * (restAfterChecksum layout).length + 5 =
      6 * (restAfterChecksum layout).length + 4 + 1 from rfl,
      parseNode_step _ w _ hx hw,
      show ((restAfterChecksum layout).dropWhile (· != 'x')).tail =
      restAfterWidth layout from rfl,
      show 6 * (restAfterChecksum layout).length + 4 =
      6 * (restAfterChecksum layout).length + 2 + 1 + 1 from rfl,
      parseAfterWidth_invalid_x w _ h _ hc hh ?hcx ?hxx]
    case hcx => exact hc2
    case hxx => exact hx2
  · intro layout w h x hmem hx hw hc hh hc2 hx2 hy
    rw [ParseLayout_eq_parseNode layout hmem]
    rw [show 6 * (restAfterChecksum layout).length + 5 =
      6 * (restAfterChecksum layout).length + 4 + 1 from rfl,
      parseNode_step _ w _ hx hw,
      show ((restAfterChecksum layout).dropWhile (· != 'x')).tail =
      restAfterWidth layout from rfl,
      show 6 * (restAfterChecksum layout).length + 4 =
      6 * (restAfterChecksum layout).length + 3 + 1 from rfl,
      parseAfterWidth_step w _ h _ hc hh,
      show ((restAfterWidth layout).dropWhile (· != ',')).tail =
      restAfterHeight layout from rfl,
      show 6 * (restAfterChecksum layout).length + 3 =
      6 * (restAfterChecksum layout).length + 1 + 1 + 1 from rfl,
      parseAfterHeight_invalid_y w h _ x _ hc2 hx2 ?hyy]
    case hyy => exact hy
  · intro layout w h x y s6 hmem hx hw hc hh hc2 hx2 hy hd hp
    rw [ParseLayout_eq_parseNode layout hmem]
    rw [show 6 * (restAfterChecksum layout).length + 5 =
      6 * (restAfterChecksum layout).length + 4 + 1 from rfl,
      parseNode_step _ w _ hx hw,
      show ((restAfterChecksum layout).dropWhile (· != 'x')).tail =
      restAfterWidth layout from rfl,
      show 6 * (restAfterChecksum layout).length + 4 =
      6 * (restAfterChecksum layout).length + 3 + 1 from rfl,
      parseAfterWidth_step w _ h _ hc hh,
      show ((restAfterWidth layout).dropWhile (· != ',')).tail =
      restAfterHeight layout from rfl,
      show 6 * (restAfterChecksum layout).length + 3 =
      6 * (restAfterChecksum layout).length + 2 + 1 from rfl,
      parseAfterHeight_step w h _ x _ hc2 hx2,
      show ((restAfterHeight layout).dropWhile (· != ',')).tail =
      restAfterX layout from rfl,
      show 6 * (restAfterChecksum layout).length + 2 =
      6 * (restAfterChecksum layout).length + 1 + 1 from rfl,
      parseAfterX_invalid_pane w h x _ y s6 _ ?hy2 ?hd2 ?hp2]
    case hy2 => exact hy
    case hd2 => exact hd
    case hp2 => exact hp

/-- Witness for the C6 amended theorem: concrete inputs exercising
the missing-separator, missing-`x`, and all five invalid-integer
families. -/
theorem parse_error_conditions_witness :
    (',' ∉ ("abc".toList) ∧
      ParseLayout ("abc".toList) = .error "invalid layout: no checksum separator") ∧
    ('x' ∉ restAfterChecksum ("ab,cd".toList) ∧
      ParseLayout ("ab,cd".toList) = .error "invalid node: no 'x' in dimensions") ∧
    (goAtoi ((restAfterChecksum ("aaaa,ax1,0,0,5".toList)).takeWhile (· != 'x')) =
        Option.none ∧
      ParseLayout ("aaaa,ax1,0,0,5".toList) = .error "invalid width") ∧
    (goAtoi ((restAfterWidth ("aaaa,1xa,0,0,5".toList)).takeWhile (· != ',')) =
        Option.none ∧
      ParseLayout ("aaaa,1xa,0,0,5".toList) = .error "invalid height") ∧
    (goAtoi ((restAfterHeight ("aaaa,1x1,a,0,5".toList)).takeWhile (· != ',')) =
        Option.none ∧
      ParseLayout ("aaaa,1x1,a,0,5".toList) = .error "invalid x") ∧
    (goAtoi ((restAfterX ("aaaa,1x1,0,a,5".toList)).takeWhile
        (fun c => !isNodeEnd c)) = Option.none ∧
      ParseLayout ("aaaa,1x1,0,a,5".toList) = .error "invalid y") ∧
    (goAtoi (("a".toList).takeWhile (fun c => !isPaneEnd c)) = Option.none ∧
      ParseLayout ("aaaa,1x1,0,0,a".toList) = .error "invalid pane ID") :=
  ⟨⟨by decide, parse_error_conditions.1 _ (by decide)⟩,
   ⟨by decide, parse_error_conditions.2.1 _ (by decide) (by decide)⟩,
   ⟨by decide, parse_error_conditions.2.2.1 _ (by decide) (by decide) (by decide)⟩,
   ⟨by decide, parse_error_conditions.2.2.2.1 _ 1 (by decide) (by decide)
      (by decide) (by decide) (by decide)⟩,
   ⟨by decide, parse_error_conditions.2.2.2.2.1 _ 1 1 (by decide) (by decide)
      (by decide) (by decide) (by decide) (by decide) (by decide)⟩,
   ⟨by decide, parse_error_conditions.2.2.2.2.2.1 _ 1 1 0 (by decide) (by decide)
      (by decide) (by decide) (by decide) (by decide) (by decide) (by decide)⟩,
   ⟨by decide, parse_error_conditions.2.2.2.2.2.2.1 _ 1 1 0 0 ("a".toList)
      (by decide) (by decide) (by decide) (by decide) (by decide) (by decide)
      (by decide) (by decide) (by decide) (by decide)⟩⟩

/-- Witness for C2 at a concrete two-by-three pane layout. -/
theorem c2_roundtrip_witness :
    ParseLayout ("ffff,2x3,0,0,9".toList) = .ok (.mk 2 3 0 0 9 SplitType.none []) ∧
    ParseLayout (BuildLayout (.mk 2 3 0 0 9 SplitType.none [])) =
      .ok (.mk 2 3 0 0 9 SplitType.none []) :=
  ⟨by decide, c2_roundtrip ("ffff,2x3,0,0,9".toList) _ (by decide)⟩
